import Mathlib

/-!
# Verification of the go-torch transformation engine

A shallow embedding, in Lean, of go-torch's two folded-stack producers:

* the raw pprof text parser and sample aggregator
  (`pprof` package: `rawParser`, `stack.Profile`, `stack.Sample`), and
* the DOT call-graph flattener
  (`graph` package: `defaultGrapher.GraphAsText`, `defaultSearcher.dfs`,
  `defaultPathStringer.pathAsString`),

together with theorems about their behaviour.  Go's mutable state is passed
explicitly: the parser is a record threaded through each line, the DFS
colour map is a function `String → Color` threaded through the traversal,
and Go errors are `Option`/`Except` values.  Machine integers (`int64`)
are modelled as `Int` with the explicit 64-bit range check that
`strconv.ParseInt` performs.
-/

namespace GoTorch

/-- Errors produced by the parser, the profile constructors and `Sample.Add`.
Each constructor carries the data that Go's `fmt.Errorf` interpolates into
the message; `ParseErr.message` below renders the exact Go format strings. -/
inductive ParseErr where
  /-- `strconv.ParseInt` failure on the given token. -/
  | atoi (s : String)
  /-- `malformed sample line: <line>` (from `rawParser.addSample`). -/
  | malformedSample (line : String)
  /-- `line has a different sample count (<got>) than sample names (<want>): <line>`. -/
  | sampleCountMismatch (got : Nat) (want : Nat) (line : String)
  /-- `malformed location line: <line>` (from `rawParser.addLocation`). -/
  | malformedLocation (line : String)
  /-- `parser ended before processing locations, state: <state>` (state index). -/
  | incomplete (stateIdx : Nat)
  /-- `cannot create a profile with no samples` (from `stack.NewProfile`). -/
  | profileMustHaveSamples
  /-- `cannot have empty sample names in profile` (from `stack.NewProfile`). -/
  | profileEmptySampleNames
  /-- `cannot add <got> values to sample with <existing> values` (from `Sample.Add`). -/
  | addMismatch (got : Nat) (existing : Nat)
  deriving DecidableEq, Repr

/-- Renders each error the way the Go code formats it with `fmt.Errorf`. -/
def ParseErr.message : ParseErr → String
  | .atoi s => "strconv.ParseInt: parsing \x22" ++ s ++ "\x22: invalid syntax"
  | .malformedSample line => "malformed sample line: " ++ line
  | .sampleCountMismatch got want line =>
      "line has a different sample count (" ++ toString got ++
        ") than sample names (" ++ toString want ++ "): " ++ line
  | .malformedLocation line => "malformed location line: " ++ line
  | .incomplete st => "parser ended before processing locations, state: " ++ toString st
  | .profileMustHaveSamples => "cannot create a profile with no samples"
  | .profileEmptySampleNames => "cannot have empty sample names in profile"
  | .addMismatch got existing =>
      "cannot add " ++ toString got ++ " values to sample with " ++ toString existing ++ " values"

/-! ## stack package (`stack/stack.go`): the data model -/

/-- `stack.Sample`: the sample counts for a specific call stack.
`Funcs` is parent first; `Counts` is aligned with the profile's
`SampleNames`.  Go's `int64` counts are modelled as `Int`. -/
structure Sample where
  Funcs : List String
  Counts : List Int
  deriving DecidableEq, Repr

/-- `stack.Profile`: a parsed pprof profile. -/
structure Profile where
  SampleNames : List String
  Samples : List Sample
  deriving DecidableEq, Repr

/-- `stack.NewProfile`: rejects an empty name list and any empty name. -/
def NewProfile (names : List String) : Except ParseErr Profile :=
  if names.length = 0 then .error .profileMustHaveSamples
  else if names.any (· = "") then .error .profileEmptySampleNames
  else .ok { SampleNames := names, Samples := [] }

/-- Elementwise addition of two count vectors; the Lean counterpart of the
`for i := range s.Counts { s.Counts[i] += counts[i] }` loop (the Go loop
only runs once the two lengths are known to be equal). -/
def vadd (a b : List Int) : List Int := List.zipWith (· + ·) a b

/-- `(*Sample).Add`: combines `counts` with the existing counts.  Go mutates
the receiver and returns an `error`; here the pair `(err?, sample)` returns
the receiver's state after the call. -/
def Sample.Add (s : Sample) (counts : List Int) : Option ParseErr × Sample :=
  if s.Counts.length ≠ counts.length then
    (some (.addMismatch counts.length s.Counts.length), s)
  else
    (none, { s with Counts := vadd s.Counts counts })

/-- `stack.NewSample`: a sample holding a copy of `counts`, made by adding
`counts` to a zero vector of the same length (exactly the Go constructor). -/
def NewSample (funcs : List String) (counts : List Int) : Sample :=
  (Sample.Add { Funcs := funcs, Counts := List.replicate counts.length 0 } counts).2

/-! ## pprof raw parser (`pprof/raw.go`): helpers -/

/-- The states of the line-oriented parser state machine, in source order. -/
inductive ReadState where
  | ignore
  | samplesHeader
  | samples
  | locations
  | mappings
  deriving DecidableEq, Repr

/-- The numeric value of a state (the Go `readState` is an `iota` int and is
compared with `<`). -/
def ReadState.idx : ReadState → Nat
  | .ignore => 0
  | .samplesHeader => 1
  | .samples => 2
  | .locations => 3
  | .mappings => 4

/-- A character matched by Go's regexp `\s` (also the whitespace set of
`strings.TrimSpace` for ASCII input). -/
def isGoSpace (c : Char) : Bool :=
  c = ' ' ∨ c = '\t' ∨ c = '\n' ∨ c = '\x0b' ∨ c = '\x0c' ∨ c = '\r'

/-- `strings.TrimSpace`: leading and trailing whitespace removed. -/
def goTrimSpace (s : String) : String :=
  ⟨((s.data.dropWhile isGoSpace).reverse.dropWhile isGoSpace).reverse⟩

/-- `strings.HasPrefix`. -/
def strHasPre (s pat : String) : Bool :=
  pat.data.isPrefixOf s.data

/-- `strings.HasSuffix`. -/
def strHasSuf (s pat : String) : Bool :=
  pat.data.reverse.isPrefixOf s.data.reverse

/-- Splitting a character list at every character satisfying `p`;
splitting the empty list yields one empty group, as `strings.Split` does. -/
def splitPredList (p : Char → Bool) : List Char → List (List Char)
  | [] => [[]]
  | c :: rest =>
      if p c then [] :: splitPredList p rest
      else
        match splitPredList p rest with
        | [] => [[c]]
        | g :: gs => (c :: g) :: gs

/-- `strings.Split` with a one-character separator (the separators the
parser uses are `":"`, `" "` and the line separator `"\n"`). -/
def splitChar (sep : Char) (s : String) : List String :=
  (splitPredList (fun c => c = sep) s.data).map String.mk

/-- `splitBySpace`: Go splits the trimmed string on the regexp `\s+`.
Splitting the empty string yields the single empty field, as
`regexp.Split` does; runs of whitespace act as one separator. -/
def splitBySpace (s : String) : List String :=
  let t := goTrimSpace s
  if t = "" then [""]
  else ((splitPredList isGoSpace t.data).map String.mk).filter (· ≠ "")

/-- `strconv.ParseInt(s, 10, 64)`: optional sign, one or more decimal
digits, result within the signed 64-bit range; anything else is an error. -/
def parseGoInt (s : String) : Option Int :=
  let (sign, digits) :=
    match s.data with
    | '+' :: rest => ((1 : Int), rest)
    | '-' :: rest => ((-1 : Int), rest)
    | l => ((1 : Int), l)
  if digits = [] then none
  else if digits.all Char.isDigit then
    let v : Int := sign * (digits.foldl (fun acc c => acc * 10 + (c.toNat - '0'.toNat)) (0 : Nat) : Nat)
    if -9223372036854775808 ≤ v ∧ v < 9223372036854775808 then some v else none
  else none

/-- `strings.TrimSuffix`. -/
def trimSuffixStr (s pat : String) : String :=
  if strHasSuf s pat then ⟨s.data.take (s.data.length - pat.data.length)⟩ else s

/-- Is `pat` a contiguous subsequence of `l`? -/
def listIsInfix (pat l : List Char) : Bool :=
  if pat.isPrefixOf l then true
  else
    match l with
    | [] => false
    | _ :: rest => listIsInfix pat rest

/-- Substring containment, Go's `strings.Contains`. -/
def containsSubstr (s pat : String) : Bool :=
  listIsInfix pat.data s.data

/-- Go's `strings.Join`: the elements separated by `sep`. -/
def stringsJoin (sep : String) : List String → String
  | [] => ""
  | [a] => a
  | a :: rest => a ++ sep ++ stringsJoin sep rest

/-! ## pprof raw parser: state and line processing -/

/-- `funcID → name` map built from the locations region.  The Go
`map[funcID]string` is modelled as a function into `Option String`
(`none` = key absent). -/
def FuncMap : Type := Int → Option String

/-- Map assignment `m[k] = v`. -/
def FuncMap.insert (m : FuncMap) (k : Int) (v : String) : FuncMap :=
  fun x => if x = k then some v else m x

/-- A raw stack record: the counts of one sample line plus its leaf-first
funcID stack (`stackRecord` in `pprof/raw.go`). -/
structure StackRecord where
  samples : List Int
  stack : List Int
  deriving DecidableEq, Repr

/-- The parser state (`rawParser`): first error, state-machine state,
location names, declared counter names and accumulated records. -/
structure RawParser where
  err : Option ParseErr
  state : ReadState
  funcNames : FuncMap
  sampleNames : List String
  records : List StackRecord

/-- `newRawParser`. -/
def newRawParser : RawParser :=
  { err := none, state := .ignore, funcNames := fun _ => none,
    sampleNames := [], records := [] }

/-- `setError` keeps only the first error encountered. -/
def RawParser.setError (p : RawParser) (e : ParseErr) : RawParser :=
  match p.err with
  | some _ => p
  | none => { p with err := some e }

/-- `parseInt`: converts a token to an `int64`, recording any error via
`setError` and returning 0 on failure. -/
def RawParser.parseInt (p : RawParser) (s : String) : RawParser × Int :=
  match parseGoInt s with
  | some v => (p, v)
  | none => (p.setError (.atoi s), 0)

/-- `parseInts`: splits on whitespace and parses every field. -/
def RawParser.parseInts (p : RawParser) (s : String) : RawParser × List Int :=
  (splitBySpace s).foldl
    (fun (acc : RawParser × List Int) tok =>
      let (p', v) := acc.1.parseInt tok
      (p', acc.2 ++ [v]))
    (p, [])

/-- `parseFuncIDs`: the funcID side of a sample line (funcIDs are ints). -/
def RawParser.parseFuncIDs (p : RawParser) (s : String) : RawParser × List Int :=
  p.parseInts s

/-- `toFuncID`. -/
def RawParser.toFuncID (p : RawParser) (s : String) : RawParser × Int :=
  p.parseInt s

/-- `getFunctionName`: a defined id resolves to its name, an undefined id
to the placeholder `missing-function-<id>`. -/
def getFunctionName (funcNames : FuncMap) (funcID : Int) : String :=
  match funcNames funcID with
  | some funcName => funcName
  | none => "missing-function-" ++ toString funcID

/-- `(*stackRecord).funcNames`: the record's names in parent-first order
(the leaf-first stack is walked from its last element to its first). -/
def StackRecord.funcNames (r : StackRecord) (funcNames : FuncMap) : List String :=
  r.stack.reverse.map (getFunctionName funcNames)

/-- `addSample`: parses a samples-region data line.  Lines holding the
`bytes:[` heap annotation are skipped; the line must split at `":"` into
exactly two halves (counts, then funcIDs); a counts vector whose length
differs from the declared counter names is the arity error. -/
def RawParser.addSample (p : RawParser) (line : String) : RawParser :=
  if containsSubstr line "bytes:[" then p
  else
    match splitChar ':' line with
    | [countsPart, funcsPart] =>
      let (p1, samples) := p.parseInts countsPart
      let (p2, funcIDs) := p1.parseFuncIDs funcsPart
      if samples.length ≠ p.sampleNames.length then
        p2.setError (.sampleCountMismatch samples.length p.sampleNames.length line)
      else
        { p2 with records := p2.records ++ [{ samples := samples, stack := funcIDs }] }
    | _ => p.setError (.malformedSample line)

/-- `addLocation`: parses a locations-region line
`<funcid>: <address> [M=<n>] <name> ...`; two-field lines are tolerated
without contributing a name, other short lines are malformed. -/
def RawParser.addLocation (p : RawParser) (line : String) : RawParser :=
  let parts := splitBySpace line
  if parts.length < 4 then
    if parts.length ≠ 2 then p.setError (.malformedLocation line) else p
  else
    let (p1, fid) := p.toFuncID (trimSuffixStr (parts.headI) ":")
    let name := if strHasPre (parts.getD 2 "") "M=" then parts.getD 3 "" else parts.getD 2 ""
    { p1 with funcNames := p1.funcNames.insert fid name }

/-- `processLine`: the per-line state machine. -/
def RawParser.processLine (p : RawParser) (line : String) : RawParser :=
  match p.state with
  | .ignore =>
      if strHasPre line "Samples" then { p with state := .samplesHeader } else p
  | .samplesHeader =>
      { p with sampleNames := splitChar ' ' line, state := .samples }
  | .samples =>
      if strHasPre line "Locations" then { p with state := .locations }
      else p.addSample line
  | .locations =>
      if strHasPre line "Mappings" then { p with state := .mappings }
      else p.addLocation line
  | .mappings => p

/-- The lines `bufio.ReadString('\n')` hands to `processLine`: every
segment terminated by a newline.  A final segment with no trailing newline
is returned together with `io.EOF`, and the Go loop breaks without
processing it. -/
def rawLines (input : String) : List String :=
  (splitChar '\n' input).dropLast

/-- The line-processing loop of `(*rawParser).parse`, before the EOF check
(each line is handed over trimmed, as `strings.TrimSpace` does). -/
def parseLoop (input : String) : RawParser :=
  (rawLines input).foldl (fun p line => p.processLine (goTrimSpace line)) newRawParser

/-- `(*rawParser).parse`: the loop plus the end-of-input check that the
locations state was reached. -/
def runParse (input : String) : RawParser :=
  let p := parseLoop input
  if p.state.idx < ReadState.locations.idx then
    p.setError (.incomplete p.state.idx)
  else p

/-! ## pprof raw parser: aggregation into a Profile (`toProfile`) -/

/-- Lookup in the insertion-ordered association list that models the Go
`map[string]*stack.Sample` used by `toProfile`. -/
def findSample : List (String × Sample) → String → Option Sample
  | [], _ => none
  | (k, s) :: rest, key => if k = key then some s else findSample rest key

/-- Replace the value stored under `key` (models mutating the map entry). -/
def updateSample : List (String × Sample) → String → Sample → List (String × Sample)
  | [], _, _ => []
  | (k, s) :: rest, key, v =>
      if k = key then (k, v) :: rest else (k, s) :: updateSample rest key v

/-- The aggregation loop of `toProfile`: each record's parent-first names
are joined with `";"` as the dedup key; an existing sample absorbs the
counts via `Add`, a fresh key inserts `NewSample`. -/
def aggregate (fm : FuncMap) : List StackRecord → List (String × Sample) →
    Except ParseErr (List (String × Sample))
  | [], acc => .ok acc
  | r :: rs, acc =>
      let ns := r.funcNames fm
      let funcKey := stringsJoin ";" ns
      match findSample acc funcKey with
      | some sample =>
          match sample.Add r.samples with
          | (some e, _) => .error e
          | (none, sample') => aggregate fm rs (updateSample acc funcKey sample')
      | none => aggregate fm rs (acc ++ [(funcKey, NewSample ns r.samples)])

/-- `(*rawParser).toProfile`: builds the profile shell via `NewProfile`,
aggregates the records, and lists the aggregated samples.  (Go lists the
map's values in unspecified map order; the model lists them in insertion
order, and order-sensitive facts are stated up to permutation.) -/
def RawParser.toProfile (p : RawParser) : Except ParseErr Profile := do
  let profile ← NewProfile p.sampleNames
  let agg ← aggregate p.funcNames p.records []
  return { profile with Samples := agg.map Prod.snd }

/-- `pprof.ParseRaw`: parse, then aggregate; any parse error aborts with
no profile. -/
def ParseRaw (input : String) : Except ParseErr Profile :=
  let p := runParse input
  match p.err with
  | some e => .error e
  | none => p.toProfile

/-! ## renderer (`renderer/flamegraph.go`): the folded-stack serializer -/

/-- The `stack.Sample` shape consumed by `renderer.renderSample`
(a parent-first function list plus a single `int64` count). -/
structure SampleV1 where
  Funcs : List String
  Count : Int
  deriving DecidableEq, Repr

/-- `renderSample`: `fmt.Fprintf(w, "%s %v\n", strings.Join(s.Funcs, ";"), s.Count)`. -/
def renderSample (s : SampleV1) : String :=
  stringsJoin ";" s.Funcs ++ " " ++ toString s.Count ++ "\n"

/-- `ToFlameInput`: renders every sample in order into one buffer. -/
def ToFlameInput (samples : List SampleV1) : String :=
  String.join (samples.map renderSample)

/-! ## graph package (`graph/graph.go`): the call-graph flattener -/

/-- A DOT edge as materialized by gographviz: source and destination node
names and the optional integer `weight` attribute (absent when the call
was too rare for the profiler to record a weight). -/
structure Edge where
  src : String
  dst : String
  weight : Option Int
  deriving DecidableEq, Repr

/-- A DOT node: its name plus the `tooltip` attribute (Go's attribute map
returns the empty string for an absent tooltip). -/
structure Node where
  name : String
  tooltip : String
  deriving DecidableEq, Repr

/-- A materialized directed graph: node list and edge list, in DOT order. -/
structure Graph where
  nodes : List Node
  edges : List Edge
  deriving DecidableEq, Repr

/-- DFS colours: white = undiscovered, gray = on the recursion stack,
black = fully traversed. -/
inductive Color where
  | white
  | gray
  | black
  deriving DecidableEq, Repr

/-- The colour map `map[string]color`; a missing key reads as the zero
value `WHITE`. -/
def ColorMap : Type := String → Color

/-- Map assignment `colorMap[node] = c`. -/
def ColorMap.set (m : ColorMap) (k : String) (c : Color) : ColorMap :=
  fun x => if x = k then c else m x

/-- Replace every occurrence of the nonempty pattern `pat` by `rep`
(`strings.Replace(s, pat, rep, -1)`).  The second argument counts
matched characters still to drop after a replacement was emitted. -/
def replaceAux (pat rep : List Char) : List Char → Nat → List Char
  | [], _ => []
  | _ :: rest, skip + 1 => replaceAux pat rep rest skip
  | c :: rest, 0 =>
      if pat.isPrefixOf (c :: rest) then rep ++ replaceAux pat rep rest (pat.length - 1)
      else c :: replaceAux pat rep rest 0

/-- `strings.Replace(s, pat, rep, -1)` for a nonempty pattern. -/
def strReplace (s pat rep : String) : String :=
  ⟨replaceAux pat.data rep.data s.data 0⟩

/-- `getFormattedFunctionLabel`: the tooltip with literal `\n` escape
sequences collapsed to spaces and quote characters stripped. -/
def getFormattedFunctionLabel (node : Node) : String :=
  strReplace (strReplace node.tooltip "\\n" " ") "\x22" ""

/-- `pathAsString`: semicolon-joined source labels, then the last edge's
destination label, one space, the sum of the recorded edge weights, and a
newline.  An empty path renders as just the weight line `0\n`. -/
def pathAsString (path : List Edge) (nameToNodes : String → Node) : String :=
  let weightSum : Int :=
    path.foldl (fun w e => match e.weight with | some v => w + v | none => w) 0
  let pathBuffer : String :=
    path.foldl (fun b e => b ++ getFormattedFunctionLabel (nameToNodes e.src) ++ ";") ""
  let pathBuffer : String :=
    match path.getLast? with
    | some lastEdge => pathBuffer ++ getFormattedFunctionLabel (nameToNodes lastEdge.dst) ++ " "
    | none => pathBuffer
  pathBuffer ++ toString weightSum ++ "\n"

/-- The Go cycle warning logged when a gray node is about to be re-entered,
carrying the offending path. -/
def cycleWarning (pathString : String) : String :=
  "The input call graph contains a cycle. This can't be represented in a " ++
    "flame graph, so this path will be ignored. For your record, the ignored path " ++
    "is:\n" ++ goTrimSpace pathString

/-- The sequential child loop of `dfs`: runs `step` on every out-edge in
order, threading the colour map and concatenating warnings and output.
`step` is the recursive `dfs` call at one less fuel. -/
def dfsChildren (step : Edge → ColorMap → Option (ColorMap × List String × String)) :
    List Edge → ColorMap × List String × String → Option (ColorMap × List String × String)
  | [], acc => some acc
  | e :: es, (cm, warns, out) =>
      match step e cm with
      | none => none
      | some (cm', warns', out') => dfsChildren step es (cm', warns ++ warns', out ++ out')

/-- `(*defaultSearcher).dfs`.  The Go recursion carries no fuel; the `Nat`
argument is an explicit recursion budget (`none` = budget exhausted), and
`dfs_terminates` below shows a budget larger than the number of
non-gray nodes always suffices.  The result is the colour map after the
call, the cycle warnings logged, and the text written to the buffer:

* a gray root is a cycle — warn with the offending path, write nothing;
* a root with no out-edges writes the accumulated path and turns black;
* otherwise mark gray, traverse every out-edge in order, then mark black. -/
def dfs (nodeToOutEdges : String → List Edge) (nameToNodes : String → Node) :
    Nat → String → List Edge → ColorMap → Option (ColorMap × List String × String)
  | 0, _, _, _ => none
  | fuel + 1, root, path, colorMap =>
      let outEdges := nodeToOutEdges root
      if colorMap root = Color.gray then
        some (colorMap, [cycleWarning (pathAsString path nameToNodes)], "")
      else if outEdges.isEmpty then
        some (colorMap.set root Color.black, [], pathAsString path nameToNodes)
      else
        match dfsChildren
            (fun e cm => dfs nodeToOutEdges nameToNodes fuel e.dst (path ++ [e]) cm)
            outEdges (colorMap.set root Color.gray, [], "") with
        | none => none
        | some (cm', warns, out) => some (cm'.set root Color.black, warns, out)

/-- `generateNodeToOutEdges`: edges grouped by source, in edge order. -/
def generateNodeToOutEdges (g : Graph) : String → List Edge :=
  fun n => g.edges.filter (fun e => e.src = n)

/-- `getInDegreeZeroNodes`: nodes with no incoming edge whose name begins
with `"N"` (the gographviz cluster-node workaround), in node order. -/
def getInDegreeZeroNodes (g : Graph) : List String :=
  (g.nodes.filter (fun node =>
      strHasPre node.name "N" && g.edges.all (fun e => e.dst ≠ node.name))).map Node.name

/-- The `Nodes.Lookup` map (go-torch graphs materialize a node for every
edge endpoint; an absent name is modelled with an empty tooltip). -/
def nameToNodesFn (g : Graph) : String → Node :=
  fun s => (g.nodes.find? (fun nd => nd.name = s)).getD { name := s, tooltip := "" }

/-- Every node name the traversal can encounter: the roots plus all edge
endpoints. -/
def nodeUniverse (g : Graph) : List String :=
  getInDegreeZeroNodes g ++ g.edges.map Edge.src ++ g.edges.map Edge.dst

/-- The `errNoActivity` message. -/
def errNoActivity : String :=
  "Your application is not doing anything right now. Please try again."

/-- `(*defaultGrapher).GraphAsText` on a materialized graph: an edge-free
graph is the no-activity error; otherwise run `dfs` from every in-degree
zero root, sharing one colour map and one output buffer.  The recursion
budget `nodeUniverse g + 1` is sufficient (`dfs_terminates`), so the
`none` fallback (which skips the root) is never taken. -/
def GraphAsText (g : Graph) : Except String String :=
  if g.edges.isEmpty then .error errNoActivity
  else
    let fuel := (nodeUniverse g).length + 1
    let result := (getInDegreeZeroNodes g).foldl
      (fun (acc : ColorMap × String) root =>
        match dfs (generateNodeToOutEdges g) (nameToNodesFn g) fuel root [] acc.1 with
        | none => acc
        | some (cm', _, out) => (cm', acc.2 ++ out))
      ((fun _ => Color.white), "")
    .ok result.2

/-! ## Helper lemmas -/

theorem setError_records (p : RawParser) (e : ParseErr) :
    (p.setError e).records = p.records := by
  unfold RawParser.setError
  cases p.err <;> rfl

theorem setError_sampleNames (p : RawParser) (e : ParseErr) :
    (p.setError e).sampleNames = p.sampleNames := by
  unfold RawParser.setError
  cases p.err <;> rfl

theorem setError_of_none (p : RawParser) (e : ParseErr) (h : p.err = none) :
    p.setError e = { p with err := some e } := by
  unfold RawParser.setError
  rw [h]

theorem setError_err_ne_none (p : RawParser) (e : ParseErr) :
    (p.setError e).err ≠ none := by
  unfold RawParser.setError
  cases h : p.err <;> simp [h]

theorem parseInt_records (p : RawParser) (s : String) :
    (p.parseInt s).1.records = p.records := by
  unfold RawParser.parseInt
  cases parseGoInt s <;> simp [setError_records]

theorem parseInt_sampleNames (p : RawParser) (s : String) :
    (p.parseInt s).1.sampleNames = p.sampleNames := by
  unfold RawParser.parseInt
  cases parseGoInt s <;> simp [setError_sampleNames]

theorem parseInt_err_mono (p : RawParser) (s : String) (h : (p.parseInt s).1.err = none) :
    p.err = none := by
  unfold RawParser.parseInt at h
  cases hg : parseGoInt s <;> rw [hg] at h
  · exact absurd h (setError_err_ne_none p _)
  · exact h

theorem parseIntsAux_records (l : List String) :
    ∀ (p : RawParser) (acc : List Int),
      (l.foldl (fun (a : RawParser × List Int) tok =>
        let (p', v) := a.1.parseInt tok
        (p', a.2 ++ [v])) (p, acc)).1.records = p.records := by
  induction l with
  | nil => intro p acc; rfl
  | cons t ts ih =>
      intro p acc
      simp only [List.foldl_cons]
      rw [ih]
      exact parseInt_records p t

theorem parseIntsAux_sampleNames (l : List String) :
    ∀ (p : RawParser) (acc : List Int),
      (l.foldl (fun (a : RawParser × List Int) tok =>
        let (p', v) := a.1.parseInt tok
        (p', a.2 ++ [v])) (p, acc)).1.sampleNames = p.sampleNames := by
  induction l with
  | nil => intro p acc; rfl
  | cons t ts ih =>
      intro p acc
      simp only [List.foldl_cons]
      rw [ih]
      exact parseInt_sampleNames p t

theorem parseIntsAux_err_mono (l : List String) :
    ∀ (p : RawParser) (acc : List Int),
      (l.foldl (fun (a : RawParser × List Int) tok =>
        let (p', v) := a.1.parseInt tok
        (p', a.2 ++ [v])) (p, acc)).1.err = none → p.err = none := by
  induction l with
  | nil => intro p acc h; exact h
  | cons t ts ih =>
      intro p acc h
      simp only [List.foldl_cons] at h
      exact parseInt_err_mono p t (ih _ _ h)

theorem parseInts_records (p : RawParser) (s : String) :
    (p.parseInts s).1.records = p.records :=
  parseIntsAux_records _ p []

theorem parseInts_sampleNames (p : RawParser) (s : String) :
    (p.parseInts s).1.sampleNames = p.sampleNames :=
  parseIntsAux_sampleNames _ p []

theorem parseInts_err_mono (p : RawParser) (s : String)
    (h : (p.parseInts s).1.err = none) : p.err = none :=
  parseIntsAux_err_mono _ p [] h

/-! ## C10 -/

/-- C10: `Sample.Add` with a counts vector of mismatching length returns an
error and leaves the sample (both `Funcs` and `Counts`) unchanged; with
matching lengths it succeeds and adds elementwise. -/
theorem sample_add_arity_guard (s : Sample) (counts : List Int) :
    (s.Counts.length ≠ counts.length →
      Sample.Add s counts =
        (some (ParseErr.addMismatch counts.length s.Counts.length), s)) ∧
    (s.Counts.length = counts.length →
      Sample.Add s counts =
        (none, { Funcs := s.Funcs, Counts := vadd s.Counts counts })) := by
  constructor <;> intro h <;> simp [Sample.Add, h]

/-- Witness for C10 at a concrete sample: adding 1 value to a sample with
2 values errors and changes nothing. -/
theorem sample_add_arity_guard_witness :
    Sample.Add { Funcs := ["a"], Counts := [1, 2] } [5] =
      (some (ParseErr.addMismatch 1 2), { Funcs := ["a"], Counts := [1, 2] }) :=
  (sample_add_arity_guard { Funcs := ["a"], Counts := [1, 2] } [5]).1 (by decide)

/-! ## C8 -/

/-- C8: when line processing ends with the parser state still earlier than
`locations` and no line produced an error, `ParseRaw` fails with the
incomplete-profile error that reports the state reached, and no profile is
returned. -/
theorem parse_incomplete_profile (input : String)
    (hstate : (parseLoop input).state.idx < ReadState.locations.idx)
    (herr : (parseLoop input).err = none) :
    ParseRaw input = .error (ParseErr.incomplete (parseLoop input).state.idx) := by
  unfold ParseRaw runParse
  rw [if_pos hstate, setError_of_none _ _ herr]

/-- Witness for C8: an input with no `Samples` marker at all fails with the
incomplete error citing state 0 (`ignore`). -/
theorem parse_incomplete_profile_witness :
    ParseRaw "hello\n" = .error (ParseErr.incomplete 0) :=
  parse_incomplete_profile "hello\n" (by decide) (by decide)

/-! ## C9 -/

/-- C9: a graph with at least one edge but no in-degree-zero node whose
name begins with `"N"` makes `GraphAsText` return the empty string with no
error — indistinguishable from a trivial graph, not the no-activity error. -/
theorem graphAsText_no_roots_empty_success (g : Graph)
    (hedges : g.edges ≠ [])
    (hroots : getInDegreeZeroNodes g = []) :
    GraphAsText g = .ok "" := by
  unfold GraphAsText
  rw [if_neg (by simp [List.isEmpty_iff, hedges]), hroots]
  rfl

/-- Witness for C9: the two-node cycle `N1 → N2 → N1` has edges but no
root, and flattens to an empty success. -/
theorem graphAsText_no_roots_empty_success_witness :
    GraphAsText { nodes := [{ name := "N1", tooltip := "N1" }, { name := "N2", tooltip := "N2" }],
                  edges := [{ src := "N1", dst := "N2", weight := some 1 },
                            { src := "N2", dst := "N1", weight := some 1 }] } = .ok "" :=
  graphAsText_no_roots_empty_success _ (by decide) (by decide)

/-! ## C4 -/

/-- C4: a samples-region data line (not a `bytes:[` annotation, with one
colon, whose tokens all parse) whose count vector length differs from the
K ≥ 1 declared counter names makes the parser record the fatal arity error
whose message carries both lengths, adds no record, and any recorded parse
error makes `ParseRaw` return it with no profile. -/
theorem sample_count_arity_error (p : RawParser)
    (line countsPart funcsPart : String) (K : Nat)
    (hstate : p.state = ReadState.samples)
    (hnotloc : strHasPre line "Locations" = false)
    (hnobytes : containsSubstr line "bytes:[" = false)
    (hsplit : splitChar ':' line = [countsPart, funcsPart])
    (herr : ((p.parseInts countsPart).1.parseFuncIDs funcsPart).1.err = none)
    (hK : p.sampleNames.length = K) (hK1 : 1 ≤ K)
    (hlen : (p.parseInts countsPart).2.length ≠ K) :
    (p.processLine line).err =
      some (ParseErr.sampleCountMismatch (p.parseInts countsPart).2.length K line) ∧
    (p.processLine line).records = p.records ∧
    (ParseErr.sampleCountMismatch (p.parseInts countsPart).2.length K line).message =
      "line has a different sample count (" ++ toString (p.parseInts countsPart).2.length ++
        ") than sample names (" ++ toString K ++ "): " ++ line ∧
    (∀ (input : String) (e : ParseErr), (runParse input).err = some e →
      ParseRaw input = .error e) := by
  subst hK
  have hadd : p.processLine line = p.addSample line := by
    unfold RawParser.processLine
    rw [hstate, hnotloc]
    simp
  have haddEq : p.addSample line =
      ((p.parseInts countsPart).1.parseFuncIDs funcsPart).1.setError
        (ParseErr.sampleCountMismatch (p.parseInts countsPart).2.length
          p.sampleNames.length line) := by
    unfold RawParser.addSample
    rw [hnobytes]
    simp only [Bool.false_eq_true, if_false, hsplit]
    rw [if_pos hlen]
  rw [hadd, haddEq]
  refine ⟨?_, ?_, ?_, ?_⟩
  · rw [setError_of_none _ _ herr]
  · rw [setError_records]
    unfold RawParser.parseFuncIDs
    rw [parseInts_records, parseInts_records]
  · rfl
  · intro input e he
    simp only [ParseRaw]
    rw [he]

/-- Witness for C4, spec scenario 3: three declared counters and the
sample line `1 2: 1` (two counts) produce the arity error naming 2 and 3. -/
theorem sample_count_arity_error_witness :
    (RawParser.processLine
        { err := none, state := ReadState.samples, funcNames := fun _ => none,
          sampleNames := ["a", "b", "c"], records := [] } "1 2: 1").err =
      some (ParseErr.sampleCountMismatch 2 3 "1 2: 1") ∧
    (RawParser.processLine
        { err := none, state := ReadState.samples, funcNames := fun _ => none,
          sampleNames := ["a", "b", "c"], records := [] } "1 2: 1").records = [] ∧
    (ParseErr.sampleCountMismatch 2 3 "1 2: 1").message =
      "line has a different sample count (2) than sample names (3): 1 2: 1" ∧
    (∀ (input : String) (e : ParseErr), (runParse input).err = some e →
      ParseRaw input = .error e) :=
  sample_count_arity_error
    { err := none, state := ReadState.samples, funcNames := fun _ => none,
      sampleNames := ["a", "b", "c"], records := [] }
    "1 2: 1" "1 2" " 1" 3 rfl (by decide) (by decide) (by decide) (by decide)
    (by decide) (by decide) (by decide)

/-! ## C7 -/

/-- The counts or funcIDs of one side of a sample line, parsed purely:
`some` of the values when every whitespace-separated token is a valid
64-bit integer. -/
def parseIntsPure (s : String) : Option (List Int) :=
  (splitBySpace s).mapM parseGoInt

theorem parseIntsAux_pure (toks : List String) :
    ∀ (l : List Int) (p : RawParser) (acc : List Int),
      toks.mapM parseGoInt = some l →
      toks.foldl (fun (a : RawParser × List Int) tok =>
        let (p', v) := a.1.parseInt tok
        (p', a.2 ++ [v])) (p, acc) = (p, acc ++ l) := by
  induction toks with
  | nil =>
      intro l p acc h
      simp only [List.mapM_nil, Option.pure_def, Option.some.injEq] at h
      simp [← h]
  | cons t ts ih =>
      intro l p acc h
      simp only [List.mapM_cons, Option.pure_def, Option.bind_eq_bind, Option.bind_eq_some,
        Option.some.injEq] at h
      obtain ⟨v, hv, rest, hrest, hl⟩ := h
      simp only [List.foldl_cons]
      have hstep : p.parseInt t = (p, v) := by
        unfold RawParser.parseInt
        rw [hv]
      rw [hstep]
      rw [ih rest p (acc ++ [v]) hrest, ← hl]
      simp

theorem parseInts_pure (p : RawParser) (s : String) (l : List Int)
    (h : parseIntsPure s = some l) : p.parseInts s = (p, l) := by
  unfold RawParser.parseInts
  unfold parseIntsPure at h
  rw [parseIntsAux_pure _ l p [] h]
  simp

/-- Counterexample to C7: the samples-region line `2 10: 1 2: 3` contains
no `bytes:[` and more than one colon; the parser does not separate counts
from funcIDs at the final colon — it records the malformed-sample error
and adds no record. -/
theorem addSample_two_colons_rejected :
    containsSubstr "2 10: 1 2: 3" "bytes:[" = false ∧
    (RawParser.addSample
        { err := none, state := ReadState.samples, funcNames := fun _ => none,
          sampleNames := ["a", "b"], records := [] } "2 10: 1 2: 3").err =
      some (ParseErr.malformedSample "2 10: 1 2: 3") ∧
    (RawParser.addSample
        { err := none, state := ReadState.samples, funcNames := fun _ => none,
          sampleNames := ["a", "b"], records := [] } "2 10: 1 2: 3").records = [] := by
  refine ⟨by decide, by decide, by decide⟩

/-- C7 (amended): a samples-region data line containing `bytes:[` is
silently skipped; a line without it must contain exactly one colon, which
separates the counts (before it) from the funcIDs (after it) — when all
tokens parse and the arity matches, exactly that record is appended; any
other number of colons is the malformed-sample error. -/
theorem addSample_single_colon_split (p : RawParser) (line : String) :
    (containsSubstr line "bytes:[" = true → p.addSample line = p) ∧
    (∀ countsPart funcsPart counts funcIDs,
      containsSubstr line "bytes:[" = false →
      splitChar ':' line = [countsPart, funcsPart] →
      parseIntsPure countsPart = some counts →
      parseIntsPure funcsPart = some funcIDs →
      counts.length = p.sampleNames.length →
      p.addSample line =
        { p with records := p.records ++ [{ samples := counts, stack := funcIDs }] }) ∧
    (containsSubstr line "bytes:[" = false →
      (splitChar ':' line).length ≠ 2 →
      p.addSample line = p.setError (ParseErr.malformedSample line)) := by
  refine ⟨?_, ?_, ?_⟩
  · intro h
    unfold RawParser.addSample
    rw [h]
    simp
  · intro countsPart funcsPart counts funcIDs hb hsplit hc hf hlen
    unfold RawParser.addSample
    rw [hb]
    simp only [Bool.false_eq_true, if_false, hsplit]
    rw [parseInts_pure p countsPart counts hc]
    show (if counts.length ≠ p.sampleNames.length then _ else _) = _
    rw [if_neg (by simp [hlen])]
    unfold RawParser.parseFuncIDs
    rw [parseInts_pure p funcsPart funcIDs hf]
  · intro hb hlen
    unfold RawParser.addSample
    rw [hb]
    simp only [Bool.false_eq_true, if_false]
    match hs : splitChar ':' line with
    | [] => rfl
    | [_] => rfl
    | [_, _] => rw [hs] at hlen; simp at hlen
    | _ :: _ :: _ :: _ => rfl

/-- Witness for C7 (amended): the line `2 10: 1 2` with counters
`["a", "b"]` appends the record with counts `[2, 10]` and stack `[1, 2]`. -/
theorem addSample_single_colon_split_witness :
    RawParser.addSample
        { err := none, state := ReadState.samples, funcNames := fun _ => none,
          sampleNames := ["a", "b"], records := [] } "2 10: 1 2" =
      { err := none, state := ReadState.samples, funcNames := fun _ => none,
        sampleNames := ["a", "b"],
        records := [{ samples := [2, 10], stack := [1, 2] }] } :=
  (addSample_single_colon_split
      { err := none, state := ReadState.samples, funcNames := fun _ => none,
        sampleNames := ["a", "b"], records := [] } "2 10: 1 2").2.1
    "2 10" " 1 2" [2, 10] [1, 2] (by decide) (by decide) (by decide) (by decide) (by decide)

/-! ## Aggregation lemmas (towards C1 and C6) -/

theorem vadd_length (a b : List Int) : (vadd a b).length = min a.length b.length := by
  unfold vadd
  exact List.length_zipWith _ _ _

theorem vadd_replicate_zero (c : List Int) : vadd (List.replicate c.length 0) c = c := by
  induction c with
  | nil => rfl
  | cons x xs ih =>
      show vadd (List.replicate (xs.length + 1) 0) (x :: xs) = x :: xs
      rw [List.replicate_succ]
      show (0 + x) :: vadd (List.replicate xs.length 0) xs = x :: xs
      rw [zero_add, ih]

theorem NewSample_eq (funcs : List String) (counts : List Int) :
    NewSample funcs counts = { Funcs := funcs, Counts := counts } := by
  unfold NewSample Sample.Add
  simp [vadd_replicate_zero]

theorem vadd_right_comm (z x y : List Int) : vadd (vadd z x) y = vadd (vadd z y) x := by
  induction z generalizing x y with
  | nil => rfl
  | cons a as ih =>
      cases x with
      | nil => simp [vadd]
      | cons b bs =>
          cases y with
          | nil => simp [vadd]
          | cons c cs =>
              simp only [vadd, List.zipWith_cons_cons]
              refine congrArg₂ (· :: ·) (by ring) ?_
              exact ih bs cs

theorem findSample_nil (k : String) : findSample [] k = none := rfl

theorem findSample_cons (e : String × Sample) (rest : List (String × Sample)) (k : String) :
    findSample (e :: rest) k = if e.1 = k then some e.2 else findSample rest k := by
  obtain ⟨a, b⟩ := e
  rfl

theorem updateSample_nil (k : String) (v : Sample) : updateSample [] k v = [] := rfl

theorem updateSample_cons (e : String × Sample) (rest : List (String × Sample))
    (k : String) (v : Sample) :
    updateSample (e :: rest) k v =
      if e.1 = k then (e.1, v) :: rest else e :: updateSample rest k v := by
  obtain ⟨a, b⟩ := e
  rfl

theorem findSample_eq_none_iff (l : List (String × Sample)) (k : String) :
    findSample l k = none ↔ k ∉ l.map Prod.fst := by
  induction l with
  | nil => simp [findSample_nil]
  | cons e rest ih =>
      rw [findSample_cons]
      by_cases h : e.1 = k
      · simp [h]
      · simp only [if_neg h, ih, List.map_cons, List.mem_cons]
        constructor
        · intro hn hk
          rcases hk with hk | hk
          · exact h hk.symm
          · exact hn hk
        · intro hnk hk
          exact hnk (Or.inr hk)

theorem findSample_mem (l : List (String × Sample)) (k : String) (s : Sample)
    (h : findSample l k = some s) : (k, s) ∈ l := by
  induction l with
  | nil => simp [findSample_nil] at h
  | cons e rest ih =>
      rw [findSample_cons] at h
      by_cases he : e.1 = k
      · rw [if_pos he] at h
        have hs := Option.some.inj h
        have hks : (k, s) = e := by
          obtain ⟨a, b⟩ := e
          simp only at he hs
          rw [he, hs]
        rw [hks]
        exact List.mem_cons_self _ _
      · rw [if_neg he] at h
        exact List.mem_cons_of_mem _ (ih h)

theorem findSample_append_left (l₁ l₂ : List (String × Sample)) (k : String) (s : Sample)
    (h : findSample l₁ k = some s) : findSample (l₁ ++ l₂) k = some s := by
  induction l₁ with
  | nil => simp [findSample_nil] at h
  | cons e rest ih =>
      rw [findSample_cons] at h
      rw [List.cons_append, findSample_cons]
      by_cases he : e.1 = k
      · rwa [if_pos he] at h ⊢
      · rw [if_neg he] at h ⊢
        exact ih h

theorem findSample_append_right (l₁ l₂ : List (String × Sample)) (k : String)
    (h : findSample l₁ k = none) : findSample (l₁ ++ l₂) k = findSample l₂ k := by
  induction l₁ with
  | nil => rfl
  | cons e rest ih =>
      rw [findSample_cons] at h
      rw [List.cons_append, findSample_cons]
      by_cases he : e.1 = k
      · rw [if_pos he] at h
        exact absurd h (by simp)
      · rw [if_neg he] at h
        rw [if_neg he]
        exact ih h

theorem findSample_singleton (k : String) (s : Sample) :
    findSample [(k, s)] k = some s := by
  rw [findSample_cons, if_pos rfl]

theorem findSample_singleton_ne (k k' : String) (s : Sample) (h : k ≠ k') :
    findSample [(k, s)] k' = none := by
  rw [findSample_cons, if_neg h]
  rfl

theorem updateSample_keys (l : List (String × Sample)) (k : String) (v : Sample) :
    (updateSample l k v).map Prod.fst = l.map Prod.fst := by
  induction l with
  | nil => rfl
  | cons e rest ih =>
      rw [updateSample_cons]
      by_cases he : e.1 = k
      · simp [he]
      · simp [he, ih]

theorem findSample_update_self (l : List (String × Sample)) (k : String) (v s : Sample)
    (h : findSample l k = some s) : findSample (updateSample l k v) k = some v := by
  induction l with
  | nil => simp [findSample_nil] at h
  | cons e rest ih =>
      rw [findSample_cons] at h
      rw [updateSample_cons]
      by_cases he : e.1 = k
      · rw [if_pos he, findSample_cons, if_pos he]
      · rw [if_neg he] at h
        rw [if_neg he, findSample_cons, if_neg he]
        exact ih h

theorem findSample_update_ne (l : List (String × Sample)) (k k' : String) (v : Sample)
    (h : k ≠ k') : findSample (updateSample l k v) k' = findSample l k' := by
  induction l with
  | nil => rfl
  | cons e rest ih =>
      rw [updateSample_cons]
      by_cases he : e.1 = k
      · have hne : e.1 ≠ k' := fun hk => h (he.symm.trans hk)
        rw [if_pos he, findSample_cons, findSample_cons]
        simp only
        rw [if_neg hne, if_neg hne]
      · rw [if_neg he, findSample_cons, findSample_cons]
        by_cases he' : e.1 = k'
        · rw [if_pos he', if_pos he']
        · rw [if_neg he', if_neg he']
          exact ih

theorem updateSample_mem (l : List (String × Sample)) (k : String) (v : Sample)
    (e : String × Sample) (h : e ∈ updateSample l k v) : e ∈ l ∨ e = (k, v) := by
  induction l with
  | nil => simp [updateSample_nil] at h
  | cons hd rest ih =>
      rw [updateSample_cons] at h
      by_cases he : hd.1 = k
      · rw [if_pos he] at h
        rcases List.mem_cons.mp h with h | h
        · right
          rw [h, he]
        · left
          exact List.mem_cons_of_mem _ h
      · rw [if_neg he] at h
        rcases List.mem_cons.mp h with h | h
        · left
          rw [h]
          exact List.mem_cons_self _ _
        · rcases ih h with h | h
          · exact Or.inl (List.mem_cons_of_mem _ h)
          · exact Or.inr h

/-- The dedup key the aggregator computes for a record. -/
def keyOf (fm : FuncMap) (r : StackRecord) : String :=
  stringsJoin ";" (r.funcNames fm)

/-- What the aggregation loop does to the entry stored under one key `k`,
described record by record: a record whose key is `k` either merges its
counts into the current entry or creates it. -/
def aggSpec (fm : FuncMap) (k : String) : List StackRecord → Option Sample → Option Sample
  | [], prev => prev
  | r :: rs, prev =>
      if keyOf fm r = k then
        match prev with
        | some s =>
            aggSpec fm k rs (some { Funcs := s.Funcs, Counts := vadd s.Counts r.samples })
        | none => aggSpec fm k rs (some (NewSample (r.funcNames fm) r.samples))
      else aggSpec fm k rs prev

theorem aggSpec_cons (fm : FuncMap) (k : String) (r : StackRecord) (rs : List StackRecord)
    (prev : Option Sample) :
    aggSpec fm k (r :: rs) prev =
      if keyOf fm r = k then
        match prev with
        | some s =>
            aggSpec fm k rs (some { Funcs := s.Funcs, Counts := vadd s.Counts r.samples })
        | none => aggSpec fm k rs (some (NewSample (r.funcNames fm) r.samples))
      else aggSpec fm k rs prev :=
  rfl

theorem aggSpec_some_eq (fm : FuncMap) (k : String) :
    ∀ (recs : List StackRecord) (s : Sample),
      aggSpec fm k recs (some s) =
        some { Funcs := s.Funcs,
               Counts := (recs.filter (fun r => decide (keyOf fm r = k))).foldl
                 (fun c r => vadd c r.samples) s.Counts } := by
  intro recs
  induction recs with
  | nil =>
      intro s
      cases s
      rfl
  | cons r rs ih =>
      intro s
      rw [List.filter_cons]
      unfold aggSpec
      by_cases h : keyOf fm r = k
      · rw [if_pos h, if_pos (by simp [h])]
        show aggSpec fm k rs
            (some { Funcs := s.Funcs, Counts := vadd s.Counts r.samples }) = _
        rw [ih]
        rfl
      · rw [if_neg h, if_neg (by simp [h])]
        exact ih s

theorem aggSpec_none_eq (fm : FuncMap) (k : String) (recs : List StackRecord) :
    aggSpec fm k recs none =
      match recs.filter (fun r => decide (keyOf fm r = k)) with
      | [] => none
      | r :: rest =>
          some { Funcs := r.funcNames fm,
                 Counts := rest.foldl (fun c r' => vadd c r'.samples) r.samples } := by
  induction recs with
  | nil => rfl
  | cons r rs ih =>
      rw [List.filter_cons]
      unfold aggSpec
      by_cases h : keyOf fm r = k
      · rw [if_pos h, if_pos (by simp [h])]
        show aggSpec fm k rs (some (NewSample (r.funcNames fm) r.samples)) = _
        rw [aggSpec_some_eq, NewSample_eq]
      · rw [if_neg h, if_neg (by simp [h])]
        exact ih

/-- The one-step unfolding of the aggregation loop. -/
theorem aggregate_cons (fm : FuncMap) (r : StackRecord) (rs : List StackRecord)
    (acc : List (String × Sample)) :
    aggregate fm (r :: rs) acc =
      match findSample acc (keyOf fm r) with
      | some sample =>
          match sample.Add r.samples with
          | (some e, _) => .error e
          | (none, sample') => aggregate fm rs (updateSample acc (keyOf fm r) sample')
      | none =>
          aggregate fm rs (acc ++ [(keyOf fm r, NewSample (r.funcNames fm) r.samples)]) :=
  rfl

theorem aggregate_cons_found (fm : FuncMap) (r : StackRecord) (rs : List StackRecord)
    (acc : List (String × Sample)) (s s' : Sample)
    (hfind : findSample acc (keyOf fm r) = some s)
    (hadd : s.Add r.samples = (none, s')) :
    aggregate fm (r :: rs) acc = aggregate fm rs (updateSample acc (keyOf fm r) s') := by
  rw [aggregate_cons, hfind]
  show (match s.Add r.samples with
        | (some e, _) => Except.error e
        | (none, sample') => aggregate fm rs (updateSample acc (keyOf fm r) sample')) = _
  rw [hadd]

theorem aggregate_cons_new (fm : FuncMap) (r : StackRecord) (rs : List StackRecord)
    (acc : List (String × Sample))
    (hfind : findSample acc (keyOf fm r) = none) :
    aggregate fm (r :: rs) acc =
      aggregate fm rs (acc ++ [(keyOf fm r, NewSample (r.funcNames fm) r.samples)]) := by
  rw [aggregate_cons, hfind]

theorem findSample_of_mem_nodup (l : List (String × Sample)) (k : String) (s : Sample)
    (hnd : (l.map Prod.fst).Nodup) (hmem : (k, s) ∈ l) : findSample l k = some s := by
  induction l with
  | nil => simp at hmem
  | cons e rest ih =>
      rw [List.map_cons, List.nodup_cons] at hnd
      rw [findSample_cons]
      rcases List.mem_cons.mp hmem with h | h
      · rw [← h]
        simp
      · have hne : e.1 ≠ k := by
          intro hk
          exact hnd.1 (hk ▸ (List.mem_map.mpr ⟨(k, s), h, rfl⟩))
        rw [if_neg hne]
        exact ih hnd.2 h

/-- The aggregation loop characterized: with uniform count-vector lengths
it cannot fail, it preserves key coherence and key nodup-ness, and the
entry stored under each key is exactly `aggSpec` over the records. -/
theorem aggregate_ok (fm : FuncMap) (L : Nat) :
    ∀ (recs : List StackRecord) (acc : List (String × Sample)),
      (∀ r ∈ recs, r.samples.length = L) →
      (∀ e ∈ acc, e.2.Counts.length = L) →
      (∀ e ∈ acc, e.1 = stringsJoin ";" e.2.Funcs) →
      ∃ outp, aggregate fm recs acc = .ok outp ∧
        (∀ e ∈ outp, e.2.Counts.length = L) ∧
        (∀ e ∈ outp, e.1 = stringsJoin ";" e.2.Funcs) ∧
        ((acc.map Prod.fst).Nodup → (outp.map Prod.fst).Nodup) ∧
        (∀ k, findSample outp k = aggSpec fm k recs (findSample acc k)) := by
  intro recs
  induction recs with
  | nil =>
      intro acc _ hlen hco
      exact ⟨acc, rfl, hlen, hco, fun h => h, fun k => rfl⟩
  | cons r rs ih =>
      intro acc hrlen hlen hco
      have hrL : r.samples.length = L := hrlen r (List.mem_cons_self _ _)
      have hrsL : ∀ r' ∈ rs, r'.samples.length = L :=
        fun r' h => hrlen r' (List.mem_cons_of_mem _ h)
      cases hfind : findSample acc (keyOf fm r) with
      | some s =>
          have hsL : s.Counts.length = L :=
            hlen _ (findSample_mem _ _ _ hfind)
          set s' : Sample := { Funcs := s.Funcs, Counts := vadd s.Counts r.samples } with hs'
          have hadd : s.Add r.samples = (none, s') := by
            unfold Sample.Add
            rw [if_neg (by rw [hsL, hrL]; exact fun h => h rfl)]
          rw [aggregate_cons_found fm r rs acc s s' hfind hadd]
          set acc' := updateSample acc (keyOf fm r) s' with hacc'
          have hlen' : ∀ e ∈ acc', e.2.Counts.length = L := by
            intro e he
            rcases updateSample_mem _ _ _ _ he with h | h
            · exact hlen e h
            · rw [h]
              show (vadd s.Counts r.samples).length = L
              rw [vadd_length, hsL, hrL, Nat.min_self]
          have hco' : ∀ e ∈ acc', e.1 = stringsJoin ";" e.2.Funcs := by
            intro e he
            rcases updateSample_mem _ _ _ _ he with h | h
            · exact hco e h
            · rw [h]
              show keyOf fm r = stringsJoin ";" s.Funcs
              exact hco _ (findSample_mem _ _ _ hfind)
          obtain ⟨outp, hagg, h1, h2, h3, h4⟩ := ih acc' hrsL hlen' hco'
          refine ⟨outp, hagg, h1, h2, ?_, ?_⟩
          · intro hnd
            apply h3
            rw [hacc', updateSample_keys]
            exact hnd
          · intro k
            rw [h4 k, aggSpec_cons]
            by_cases hk : keyOf fm r = k
            · rw [if_pos hk]
              have hacck : findSample acc k = some s := by rw [← hk]; exact hfind
              have hacck' : findSample acc' k = some s' := by
                rw [hacc', ← hk]
                exact findSample_update_self _ _ _ _ hfind
              rw [hacck', hacck]
            · rw [if_neg hk]
              have hsame : findSample acc' k = findSample acc k := by
                rw [hacc']
                exact findSample_update_ne _ _ _ _ (fun h => hk (h ▸ rfl))
              rw [hsame]
      | none =>
          rw [aggregate_cons_new fm r rs acc hfind]
          set v : Sample := NewSample (r.funcNames fm) r.samples with hv
          set acc' := acc ++ [(keyOf fm r, v)] with hacc'
          have hvL : v.Counts.length = L := by
            rw [hv, NewSample_eq]
            exact hrL
          have hlen' : ∀ e ∈ acc', e.2.Counts.length = L := by
            intro e he
            rcases List.mem_append.mp he with h | h
            · exact hlen e h
            · rw [List.mem_singleton.mp h]
              exact hvL
          have hco' : ∀ e ∈ acc', e.1 = stringsJoin ";" e.2.Funcs := by
            intro e he
            rcases List.mem_append.mp he with h | h
            · exact hco e h
            · rw [List.mem_singleton.mp h]
              show keyOf fm r = stringsJoin ";" v.Funcs
              rw [hv, NewSample_eq]
              rfl
          obtain ⟨outp, hagg, h1, h2, h3, h4⟩ := ih acc' hrsL hlen' hco'
          refine ⟨outp, hagg, h1, h2, ?_, ?_⟩
          · intro hnd
            apply h3
            rw [hacc', List.map_append, List.map_singleton]
            apply List.Nodup.append hnd (List.nodup_singleton _)
            intro a ha hb
            rw [List.mem_singleton.mp hb] at ha
            exact (findSample_eq_none_iff _ _).mp hfind ha
          · intro k
            rw [h4 k, aggSpec_cons]
            by_cases hk : keyOf fm r = k
            · rw [if_pos hk]
              have hacck : findSample acc k = none := by rw [← hk]; exact hfind
              have hacck' : findSample acc' k = some v := by
                rw [hacc', ← hk]
                rw [findSample_append_right _ _ _ hfind]
                exact findSample_singleton _ _
              rw [hacck', hacck]
            · rw [if_neg hk]
              have hsame : findSample acc' k = findSample acc k := by
                rw [hacc']
                cases hacck : findSample acc k with
                | some s => exact findSample_append_left _ _ _ _ hacck
                | none =>
                    rw [findSample_append_right _ _ _ hacck]
                    exact findSample_singleton_ne _ _ _ (fun h => hk (h ▸ rfl))
              rw [hsame]

/-! ## Join injectivity and permutation invariance -/

/-- Character-level view of `stringsJoin ";"`. -/
def sepJoinChars : List (List Char) → List Char
  | [] => []
  | [x] => x
  | x :: xs => x ++ ';' :: sepJoinChars xs

theorem stringsJoin_data :
    ∀ l : List String, (stringsJoin ";" l).data = sepJoinChars (l.map String.data) := by
  intro l
  match l with
  | [] => rfl
  | [a] => rfl
  | a :: b :: t =>
      show ((a ++ ";") ++ stringsJoin ";" (b :: t)).data = a.data ++ ';' :: sepJoinChars _
      rw [String.data_append, String.data_append, stringsJoin_data (b :: t)]
      simp [sepJoinChars]

theorem sepJoinChars_cons_ne_nil (y : List Char) (ys : List (List Char)) (hy : y ≠ []) :
    sepJoinChars (y :: ys) ≠ [] := by
  cases ys with
  | nil => exact hy
  | cons z zs =>
      show y ++ ';' :: sepJoinChars (z :: zs) ≠ []
      simp

theorem append_semi_inj :
    ∀ (la lb lx ly : List Char), ';' ∉ la → ';' ∉ lb →
      la ++ ';' :: lx = lb ++ ';' :: ly → la = lb ∧ lx = ly := by
  intro la
  induction la with
  | nil =>
      intro lb lx ly _ hb h
      cases lb with
      | nil =>
          simp only [List.nil_append] at h
          exact ⟨rfl, (List.cons.injEq _ _ _ _ ▸ h).2⟩
      | cons c lb' =>
          simp only [List.nil_append, List.cons_append, List.cons.injEq] at h
          exfalso
          apply hb
          rw [← h.1]
          exact List.mem_cons_self _ _
  | cons c la' ih =>
      intro lb lx ly ha hb h
      cases lb with
      | nil =>
          simp only [List.cons_append, List.nil_append, List.cons.injEq] at h
          exfalso
          apply ha
          rw [h.1]
          exact List.mem_cons_self _ _
      | cons d lb' =>
          simp only [List.cons_append, List.cons.injEq] at h
          obtain ⟨hcd, hrest⟩ := h
          have ha' : ';' ∉ la' := fun hm => ha (List.mem_cons_of_mem _ hm)
          have hb' : ';' ∉ lb' := fun hm => hb (List.mem_cons_of_mem _ hm)
          obtain ⟨h1, h2⟩ := ih lb' lx ly ha' hb' hrest
          exact ⟨by rw [hcd, h1], h2⟩

theorem sepJoinChars_inj :
    ∀ (l₁ l₂ : List (List Char)),
      (∀ x ∈ l₁, x ≠ [] ∧ ';' ∉ x) → (∀ x ∈ l₂, x ≠ [] ∧ ';' ∉ x) →
      sepJoinChars l₁ = sepJoinChars l₂ → l₁ = l₂ := by
  intro l₁
  induction l₁ with
  | nil =>
      intro l₂ _ h₂ h
      cases l₂ with
      | nil => rfl
      | cons y ys =>
          exact absurd h.symm (sepJoinChars_cons_ne_nil y ys (h₂ y (List.mem_cons_self _ _)).1)
  | cons x xs ih =>
      intro l₂ h₁ h₂ h
      cases l₂ with
      | nil =>
          exact absurd h (sepJoinChars_cons_ne_nil x xs (h₁ x (List.mem_cons_self _ _)).1)
      | cons y ys =>
          cases xs with
          | nil =>
              cases ys with
              | nil => rw [show x = y from h]
              | cons y' ys' =>
                  exfalso
                  have hx : ';' ∉ x := (h₁ x (List.mem_cons_self _ _)).2
                  apply hx
                  rw [show sepJoinChars [x] = x from rfl] at h
                  rw [h]
                  show ';' ∈ y ++ ';' :: sepJoinChars (y' :: ys')
                  exact List.mem_append_right _ (List.mem_cons_self _ _)
          | cons x' xs' =>
              cases ys with
              | nil =>
                  exfalso
                  have hy : ';' ∉ y := (h₂ y (List.mem_cons_self _ _)).2
                  apply hy
                  rw [show sepJoinChars [y] = y from rfl] at h
                  rw [← h]
                  show ';' ∈ x ++ ';' :: sepJoinChars (x' :: xs')
                  exact List.mem_append_right _ (List.mem_cons_self _ _)
              | cons y' ys' =>
                  have hx : ';' ∉ x := (h₁ x (List.mem_cons_self _ _)).2
                  have hy : ';' ∉ y := (h₂ y (List.mem_cons_self _ _)).2
                  have h' : x ++ ';' :: sepJoinChars (x' :: xs') =
                      y ++ ';' :: sepJoinChars (y' :: ys') := h
                  obtain ⟨hxy, hrest⟩ := append_semi_inj _ _ _ _ hx hy h'
                  have := ih (y' :: ys')
                    (fun z hz => h₁ z (List.mem_cons_of_mem _ hz))
                    (fun z hz => h₂ z (List.mem_cons_of_mem _ hz)) hrest
                  rw [hxy, this]

/-- A name usable as one component of a dedup key: nonempty and
semicolon-free. -/
abbrev GoodName (n : String) : Prop := n ≠ "" ∧ ';' ∉ n.data

theorem data_ne_nil_of_ne_empty (n : String) (h : n ≠ "") : n.data ≠ [] := by
  intro hd
  exact h (String.ext hd)

theorem stringsJoin_inj (l₁ l₂ : List String)
    (h₁ : ∀ n ∈ l₁, GoodName n) (h₂ : ∀ n ∈ l₂, GoodName n)
    (h : stringsJoin ";" l₁ = stringsJoin ";" l₂) : l₁ = l₂ := by
  have hd : sepJoinChars (l₁.map String.data) = sepJoinChars (l₂.map String.data) := by
    rw [← stringsJoin_data, ← stringsJoin_data, h]
  have hmap : l₁.map String.data = l₂.map String.data := by
    apply sepJoinChars_inj _ _ ?_ ?_ hd
    · intro x hx
      obtain ⟨n, hn, rfl⟩ := List.mem_map.mp hx
      exact ⟨data_ne_nil_of_ne_empty n (h₁ n hn).1, (h₁ n hn).2⟩
    · intro x hx
      obtain ⟨n, hn, rfl⟩ := List.mem_map.mp hx
      exact ⟨data_ne_nil_of_ne_empty n (h₂ n hn).1, (h₂ n hn).2⟩
  exact List.map_injective_iff.mpr (fun a b hab => String.ext hab) hmap

/-- The elementwise sum of the counts of every record resolving to the
parent-first name sequence `ns` — the spec's description of an aggregated
sample's counts. -/
def sumCounts (fm : FuncMap) (recs : List StackRecord) (ns : List String) (L : Nat) :
    List Int :=
  (recs.filter (fun r => decide (r.funcNames fm = ns))).foldl
    (fun c r => vadd c r.samples) (List.replicate L 0)

theorem foldl_vadd_from_zero (L : Nat) (r : StackRecord) (rest : List StackRecord)
    (hr : r.samples.length = L) :
    rest.foldl (fun c r' => vadd c r'.samples) r.samples =
      (r :: rest).foldl (fun c r' => vadd c r'.samples) (List.replicate L 0) := by
  rw [List.foldl_cons]
  have : vadd (List.replicate L 0) r.samples = r.samples := by
    rw [← hr]
    exact vadd_replicate_zero r.samples
  rw [this]

/-- Under good names, the entry `aggSpec` computes for the key of a
sequence `ns` that occurs among the records is exactly the sample
`⟨ns, sumCounts⟩`. -/
theorem aggSpec_key_eq (fm : FuncMap) (recs : List StackRecord) (L : Nat)
    (ns : List String)
    (hL : ∀ r ∈ recs, r.samples.length = L)
    (hnames : ∀ r ∈ recs, ∀ n ∈ r.funcNames fm, GoodName n)
    (hns : ∃ r ∈ recs, r.funcNames fm = ns) :
    aggSpec fm (stringsJoin ";" ns) recs none =
      some { Funcs := ns, Counts := sumCounts fm recs ns L } := by
  obtain ⟨r₀, hr₀, hr₀ns⟩ := hns
  have hfe : recs.filter (fun r => decide (keyOf fm r = stringsJoin ";" ns)) =
      recs.filter (fun r => decide (r.funcNames fm = ns)) := by
    apply List.filter_congr
    intro r hr
    apply decide_eq_decide.mpr
    constructor
    · intro hk
      exact stringsJoin_inj _ _ (hnames r hr) (hr₀ns ▸ hnames r₀ hr₀) hk
    · intro hf
      rw [keyOf, hf]
  rw [aggSpec_none_eq, hfe]
  have hmem : r₀ ∈ recs.filter (fun r => decide (r.funcNames fm = ns)) :=
    List.mem_filter.mpr ⟨hr₀, by simp [hr₀ns]⟩
  cases hfl : recs.filter (fun r => decide (r.funcNames fm = ns)) with
  | nil => rw [hfl] at hmem; simp at hmem
  | cons r₁ rest =>
      have hr₁ : r₁ ∈ recs ∧ r₁.funcNames fm = ns := by
        have : r₁ ∈ recs.filter (fun r => decide (r.funcNames fm = ns)) := by
          rw [hfl]; exact List.mem_cons_self _ _
        have h' := List.mem_filter.mp this
        exact ⟨h'.1, by simpa using h'.2⟩
      show some _ = _
      rw [hr₁.2]
      have hsum : rest.foldl (fun c r' => vadd c r'.samples) r₁.samples =
          sumCounts fm recs ns L := by
        rw [foldl_vadd_from_zero L r₁ rest (hL r₁ hr₁.1), sumCounts, hfl]
      rw [hsum]

/-- `aggSpec` over a permutation of the records computes the same entry
for every key (good names and uniform lengths assumed). -/
theorem aggSpec_perm_inv (fm : FuncMap) (k : String) (recs recs' : List StackRecord)
    (L : Nat) (hperm : recs.Perm recs')
    (hL : ∀ r ∈ recs, r.samples.length = L)
    (hnames : ∀ r ∈ recs, ∀ n ∈ r.funcNames fm, GoodName n) :
    aggSpec fm k recs none = aggSpec fm k recs' none := by
  rw [aggSpec_none_eq, aggSpec_none_eq]
  have hpf : (recs.filter (fun r => decide (keyOf fm r = k))).Perm
      (recs'.filter (fun r => decide (keyOf fm r = k))) := hperm.filter _
  cases hfl : recs.filter (fun r => decide (keyOf fm r = k)) with
  | nil =>
      have hpf' := hpf
      rw [hfl] at hpf'
      rw [hpf'.symm.eq_nil]
  | cons r₁ rest =>
      cases hfl' : recs'.filter (fun r => decide (keyOf fm r = k)) with
      | nil =>
          rw [hfl, hfl'] at hpf
          exact absurd hpf.symm (by simp)
      | cons r₂ rest' =>
          rw [hfl, hfl'] at hpf
          have hmem₁ : r₁ ∈ recs ∧ keyOf fm r₁ = k := by
            have : r₁ ∈ recs.filter (fun r => decide (keyOf fm r = k)) := by
              rw [hfl]; exact List.mem_cons_self _ _
            have h' := List.mem_filter.mp this
            exact ⟨h'.1, by simpa using h'.2⟩
          have hmem₂ : r₂ ∈ recs ∧ keyOf fm r₂ = k := by
            have : r₂ ∈ recs'.filter (fun r => decide (keyOf fm r = k)) := by
              rw [hfl']; exact List.mem_cons_self _ _
            have h' := List.mem_filter.mp this
            refine ⟨hperm.mem_iff.mpr h'.1, by simpa using h'.2⟩
          have hfuncs : r₁.funcNames fm = r₂.funcNames fm := by
            apply stringsJoin_inj _ _ (hnames r₁ hmem₁.1) (hnames r₂ hmem₂.1)
            rw [← keyOf, ← keyOf, hmem₁.2, hmem₂.2]
          have hLfil : ∀ r ∈ r₁ :: rest, r.samples.length = L := by
            intro r hr
            have : r ∈ recs.filter (fun r => decide (keyOf fm r = k)) := by
              rw [hfl]; exact hr
            exact hL r (List.mem_filter.mp this).1
          have hsum : rest.foldl (fun c r' => vadd c r'.samples) r₁.samples =
              rest'.foldl (fun c r' => vadd c r'.samples) r₂.samples := by
            rw [foldl_vadd_from_zero L r₁ rest (hLfil r₁ (List.mem_cons_self _ _)),
              foldl_vadd_from_zero L r₂ rest'
                (by
                  have : r₂ ∈ r₁ :: rest := hpf.mem_iff.mpr (List.mem_cons_self _ _)
                  exact hLfil r₂ this)]
            apply hpf.foldl_eq'
            intro x _ y _ z
            exact vadd_right_comm z x.samples y.samples
          show (some (Sample.mk (r₁.funcNames fm)
              (rest.foldl (fun c r' => vadd c r'.samples) r₁.samples)) : Option Sample) =
            some (Sample.mk (r₂.funcNames fm)
              (rest'.foldl (fun c r' => vadd c r'.samples) r₂.samples))
          rw [hfuncs, hsum]

/-- Two association lists with nodup keys and identical lookups are
permutations of each other. -/
theorem assoc_perm_of_lookup_eq (l₁ l₂ : List (String × Sample))
    (h₁ : (l₁.map Prod.fst).Nodup) (h₂ : (l₂.map Prod.fst).Nodup)
    (h : ∀ k, findSample l₁ k = findSample l₂ k) : l₁.Perm l₂ := by
  apply (List.perm_ext_iff_of_nodup (List.Nodup.of_map _ h₁) (List.Nodup.of_map _ h₂)).mpr
  intro a
  constructor
  · intro ha
    apply findSample_mem l₂ a.1 a.2
    rw [← h a.1]
    exact findSample_of_mem_nodup _ _ _ h₁ ha
  · intro ha
    apply findSample_mem l₁ a.1 a.2
    rw [h a.1]
    exact findSample_of_mem_nodup _ _ _ h₂ ha

/-! ## C1 -/

theorem NewProfile_ok (names : List String) (h1 : names.length ≠ 0)
    (h2 : names.any (· = "") = false) :
    NewProfile names = .ok { SampleNames := names, Samples := [] } := by
  unfold NewProfile
  rw [if_neg h1, if_neg (by simp [h2])]

theorem toProfile_eq (p : RawParser) (outp : List (String × Sample))
    (h1 : p.sampleNames.length ≠ 0) (h2 : p.sampleNames.any (· = "") = false)
    (hagg : aggregate p.funcNames p.records [] = .ok outp) :
    p.toProfile = .ok { SampleNames := p.sampleNames, Samples := outp.map Prod.snd } := by
  unfold RawParser.toProfile
  rw [NewProfile_ok _ h1 h2, hagg]
  rfl

/-- Counterexample to C1: with a function name containing `";"`, the two
distinct parent-first sequences `["a;b"]` and `["a", "b"]` share the dedup
key `"a;b"`, so aggregation merges them into one sample whose `Funcs`
depend on record order: the two orders of the same records yield sample
multisets that are not permutations of each other. -/
theorem toProfile_semicolon_order_dependent :
    List.Perm
      [StackRecord.mk [1] [1], StackRecord.mk [1] [3, 2]]
      [StackRecord.mk [1] [3, 2], StackRecord.mk [1] [1]] ∧
    RawParser.toProfile
        { err := none, state := ReadState.mappings,
          funcNames := fun x =>
            if x = 1 then some "a;b" else if x = 2 then some "a" else
              if x = 3 then some "b" else none,
          sampleNames := ["samples/count"],
          records := [StackRecord.mk [1] [1], StackRecord.mk [1] [3, 2]] } =
      .ok { SampleNames := ["samples/count"],
            Samples := [{ Funcs := ["a;b"], Counts := [2] }] } ∧
    RawParser.toProfile
        { err := none, state := ReadState.mappings,
          funcNames := fun x =>
            if x = 1 then some "a;b" else if x = 2 then some "a" else
              if x = 3 then some "b" else none,
          sampleNames := ["samples/count"],
          records := [StackRecord.mk [1] [3, 2], StackRecord.mk [1] [1]] } =
      .ok { SampleNames := ["samples/count"],
            Samples := [{ Funcs := ["a", "b"], Counts := [2] }] } ∧
    ¬ List.Perm [Sample.mk ["a;b"] [2]] [Sample.mk ["a", "b"] [2]] := by
  refine ⟨List.Perm.swap _ _ _, rfl, rfl, ?_⟩
  intro h
  have hm := h.mem_iff.mp (List.mem_cons_self _ _)
  simp at hm

/-- C1 (amended): when every resolved function name is nonempty and
semicolon-free and all count vectors share one length, aggregation yields,
for each distinct parent-first sequence appearing among the records,
exactly one sample, whose counts are the elementwise sum over the records
sharing that sequence, and the sample multiset is the same for every
permutation of the records. -/
theorem toProfile_unique_sum_perm (p : RawParser) (L : Nat)
    (hsn1 : p.sampleNames.length ≠ 0)
    (hsn2 : p.sampleNames.any (· = "") = false)
    (hlen : ∀ r ∈ p.records, r.samples.length = L)
    (hnames : ∀ r ∈ p.records, ∀ n ∈ r.funcNames p.funcNames, GoodName n) :
    ∃ prof, p.toProfile = .ok prof ∧
      (∀ ns, (∃ r ∈ p.records, r.funcNames p.funcNames = ns) →
        ∃ s, s ∈ prof.Samples ∧ s.Funcs = ns ∧
          s.Counts = sumCounts p.funcNames p.records ns L ∧
          (∀ s', s' ∈ prof.Samples → s'.Funcs = ns → s' = s)) ∧
      (∀ q : RawParser, q.sampleNames = p.sampleNames → q.funcNames = p.funcNames →
        q.records.Perm p.records →
        ∃ prof', q.toProfile = .ok prof' ∧ prof'.Samples.Perm prof.Samples) := by
  obtain ⟨outp, hagg, hLo, hco, hnd, hlook⟩ :=
    aggregate_ok p.funcNames L p.records [] hlen (by simp) (by simp)
  have hndo : (outp.map Prod.fst).Nodup := hnd (by simp)
  refine ⟨_, toProfile_eq p outp hsn1 hsn2 hagg, ?_, ?_⟩
  · intro ns hns
    have hkey : findSample outp (stringsJoin ";" ns) =
        some { Funcs := ns, Counts := sumCounts p.funcNames p.records ns L } := by
      rw [hlook]
      exact aggSpec_key_eq p.funcNames p.records L ns hlen hnames hns
    refine ⟨_, List.mem_map.mpr ⟨_, findSample_mem _ _ _ hkey, rfl⟩, rfl, rfl, ?_⟩
    intro s' hs' hfuncs
    obtain ⟨e, he, hes⟩ := List.mem_map.mp hs'
    have hekey : e.1 = stringsJoin ";" ns := by
      rw [hco e he, hes, hfuncs]
    have hfind' : findSample outp (stringsJoin ";" ns) = some s' := by
      rw [← hekey, ← hes]
      exact findSample_of_mem_nodup _ _ _ hndo (by
        obtain ⟨e1, e2⟩ := e
        exact he)
    have := hfind'.symm.trans hkey
    exact Option.some.inj this
  · intro q hq1 hq2 hperm
    have hlenq : ∀ r ∈ q.records, r.samples.length = L :=
      fun r hr => hlen r (hperm.mem_iff.mp hr)
    obtain ⟨outp', hagg', hLo', hco', hnd', hlook'⟩ :=
      aggregate_ok q.funcNames L q.records [] hlenq (by simp) (by simp)
    have hndo' : (outp'.map Prod.fst).Nodup := hnd' (by simp)
    refine ⟨_, toProfile_eq q outp' (by rw [hq1]; exact hsn1) (by rw [hq1]; exact hsn2)
      hagg', ?_⟩
    have hout : outp'.Perm outp := by
      apply assoc_perm_of_lookup_eq _ _ hndo' hndo
      intro k
      rw [hlook k, hlook' k]
      show aggSpec q.funcNames k q.records none = aggSpec p.funcNames k p.records none
      rw [hq2]
      exact aggSpec_perm_inv p.funcNames k q.records p.records L hperm hlenq
        (fun r hr => hnames r (hperm.mem_iff.mp hr))
    exact hout.map Prod.snd

/-- Witness for C1 (amended) at a concrete parser state: two records with
the same single-function stack and a valid one-counter profile. -/
theorem toProfile_unique_sum_perm_witness :
    ∃ prof,
      RawParser.toProfile
          { err := none, state := ReadState.mappings,
            funcNames := fun x => if x = 1 then some "ma" else none,
            sampleNames := ["samples/count"],
            records := [StackRecord.mk [2] [1], StackRecord.mk [3] [1]] } =
        .ok prof ∧
      (∀ ns,
        (∃ r ∈ [StackRecord.mk [2] [1], StackRecord.mk [3] [1]],
          r.funcNames (fun x => if x = 1 then some "ma" else none) = ns) →
        ∃ s, s ∈ prof.Samples ∧ s.Funcs = ns ∧
          s.Counts = sumCounts (fun x => if x = 1 then some "ma" else none)
            [StackRecord.mk [2] [1], StackRecord.mk [3] [1]] ns 1 ∧
          (∀ s', s' ∈ prof.Samples → s'.Funcs = ns → s' = s)) ∧
      (∀ q : RawParser, q.sampleNames = ["samples/count"] →
        q.funcNames = (fun x => if x = 1 then some "ma" else none) →
        q.records.Perm [StackRecord.mk [2] [1], StackRecord.mk [3] [1]] →
        ∃ prof', q.toProfile = .ok prof' ∧ prof'.Samples.Perm prof.Samples) :=
  toProfile_unique_sum_perm
    { err := none, state := ReadState.mappings,
      funcNames := fun x => if x = 1 then some "ma" else none,
      sampleNames := ["samples/count"],
      records := [StackRecord.mk [2] [1], StackRecord.mk [3] [1]] } 1
    (by decide) (by decide) (by decide) (by decide)

/-! ## C6 -/

/-- C6: a funcID with no locations entry resolves to the placeholder
`missing-function-<id>` at exactly the mirrored (parent-first) stack
position, the resolved name list covers every stack position, and
aggregation into a profile succeeds regardless of the funcID → name map
(missing references are never an error). -/
theorem missing_function_placeholder (fm : FuncMap) (r : StackRecord) (i : Nat) (fid : Int)
    (hi : r.stack[i]? = some fid) (hmiss : fm fid = none) :
    (r.funcNames fm).length = r.stack.length ∧
    (r.funcNames fm)[r.stack.length - 1 - i]? =
      some ("missing-function-" ++ toString fid) ∧
    (∀ p : RawParser, p.sampleNames.length ≠ 0 →
      p.sampleNames.any (· = "") = false →
      (∀ r' ∈ p.records, r'.samples.length = p.sampleNames.length) →
      ∃ prof, p.toProfile = .ok prof) := by
  have hlt : i < r.stack.length := by
    by_contra hge
    rw [List.getElem?_eq_none (by omega)] at hi
    cases hi
  refine ⟨?_, ?_, ?_⟩
  · unfold StackRecord.funcNames
    rw [List.length_map, List.length_reverse]
  · unfold StackRecord.funcNames
    rw [List.getElem?_map, List.getElem?_reverse (by omega)]
    have hidx : r.stack.length - 1 - (r.stack.length - 1 - i) = i := by omega
    rw [hidx, hi]
    show some (getFunctionName fm fid) = _
    unfold getFunctionName
    rw [hmiss]
  · intro p h1 h2 h3
    obtain ⟨outp, hagg, _⟩ :=
      aggregate_ok p.funcNames p.sampleNames.length p.records [] h3 (by simp) (by simp)
    exact ⟨_, toProfile_eq p outp h1 h2 hagg⟩

/-- Witness for C6, spec scenario 1: the record for sample line
`2 10000000: 1 2` with only funcID 1 defined resolves to
`["missing-function-2", "funcName"]`. -/
theorem missing_function_placeholder_witness :
    ((StackRecord.mk [2, 10000000] [1, 2]).funcNames
        (fun x => if x = 1 then some "funcName" else none)).length = 2 ∧
    ((StackRecord.mk [2, 10000000] [1, 2]).funcNames
        (fun x => if x = 1 then some "funcName" else none))[0]? =
      some ("missing-function-" ++ toString (2 : Int)) ∧
    (∀ p : RawParser, p.sampleNames.length ≠ 0 →
      p.sampleNames.any (· = "") = false →
      (∀ r' ∈ p.records, r'.samples.length = p.sampleNames.length) →
      ∃ prof, p.toProfile = .ok prof) :=
  missing_function_placeholder
    (fun x => if x = 1 then some "funcName" else none)
    (StackRecord.mk [2, 10000000] [1, 2]) 1 2 (by decide) (by decide)

/-! ## DFS lemmas (towards C3 and C5) -/

/-- Two colour maps with the same in-progress (gray) set. -/
def grayEq (cm cm' : ColorMap) : Prop :=
  ∀ n, cm n = Color.gray ↔ cm' n = Color.gray

theorem grayEq_refl (cm : ColorMap) : grayEq cm cm := fun _ => Iff.rfl

theorem grayEq_symm (cm cm' : ColorMap) (h : grayEq cm cm') : grayEq cm' cm :=
  fun n => (h n).symm

theorem grayEq_trans (a b c : ColorMap) (h₁ : grayEq a b) (h₂ : grayEq b c) : grayEq a c :=
  fun n => (h₁ n).trans (h₂ n)

/-- The number of nodes of `V` not currently gray: the DFS recursion
measure. -/
def countNonGray (V : List String) (cm : ColorMap) : Nat :=
  (V.filter (fun n => decide (cm n ≠ Color.gray))).length

theorem countNonGray_congr (V : List String) (cm cm' : ColorMap) (h : grayEq cm cm') :
    countNonGray V cm = countNonGray V cm' := by
  unfold countNonGray
  rw [List.filter_congr]
  intro n _
  apply decide_eq_decide.mpr
  constructor
  · intro hn hg
    exact hn ((h n).mpr hg)
  · intro hn hg
    exact hn ((h n).mp hg)

theorem countNonGray_set_gray_le (V : List String) (cm : ColorMap) (k : String) :
    countNonGray V (cm.set k Color.gray) ≤ countNonGray V cm := by
  induction V with
  | nil => exact Nat.le_refl _
  | cons n V' ih =>
      unfold countNonGray at ih ⊢
      rw [List.filter_cons, List.filter_cons]
      by_cases hset : (cm.set k Color.gray) n = Color.gray
      · rw [if_neg (by simp [hset])]
        by_cases hcm : cm n = Color.gray
        · rw [if_neg (by simp [hcm])]
          exact ih
        · rw [if_pos (by simp [hcm])]
          exact Nat.le_succ_of_le ih
      · have hcm : cm n ≠ Color.gray := by
          intro hg
          apply hset
          unfold ColorMap.set
          by_cases hnk : n = k
          · rw [if_pos hnk]
          · rw [if_neg hnk]
            exact hg
        rw [if_pos (by simp [hset]), if_pos (by simp [hcm])]
        simpa using ih

theorem countNonGray_set_gray_lt (V : List String) (cm : ColorMap) (k : String)
    (hk : k ∈ V) (hcm : cm k ≠ Color.gray) :
    countNonGray V (cm.set k Color.gray) < countNonGray V cm := by
  induction V with
  | nil => simp at hk
  | cons n V' ih =>
      unfold countNonGray
      rw [List.filter_cons, List.filter_cons]
      by_cases hnk : n = k
      · have hset : (cm.set k Color.gray) n = Color.gray := by
          unfold ColorMap.set
          rw [if_pos hnk]
        have hcmn : cm n ≠ Color.gray := hnk ▸ hcm
        rw [if_neg (by simp [hset]), if_pos (by simp [hcmn])]
        exact Nat.lt_succ_of_le (countNonGray_set_gray_le V' cm k)
      · rcases List.mem_cons.mp hk with h | h
        · exact absurd h.symm hnk
        · have hsame : (cm.set k Color.gray) n = cm n := by
            unfold ColorMap.set
            rw [if_neg hnk]
          by_cases hcmn : cm n = Color.gray
          · rw [if_neg (by simp [hsame, hcmn]), if_neg (by simp [hcmn])]
            exact ih h
          · rw [if_pos (by simp [hsame, hcmn]), if_pos (by simp [hcmn])]
            exact Nat.succ_lt_succ (ih h)

/-- The child loop preserves success, the gray set and black marks, given
that each step does. -/
theorem dfsChildren_sound (step : Edge → ColorMap → Option (ColorMap × List String × String))
    (P : ColorMap → Prop)
    (hP : ∀ cm cm', grayEq cm' cm → P cm → P cm') :
    ∀ (edges : List Edge) (cm : ColorMap) (warns : List String) (o : String),
      (∀ e ∈ edges, ∀ cm₀, P cm₀ →
        ∃ cm' w oo, step e cm₀ = some (cm', w, oo) ∧ grayEq cm' cm₀ ∧
          (∀ n, cm₀ n = Color.black → cm' n = Color.black)) →
      P cm →
      ∃ cm' w oo, dfsChildren step edges (cm, warns, o) = some (cm', w, oo) ∧
        grayEq cm' cm ∧ (∀ n, cm n = Color.black → cm' n = Color.black) := by
  intro edges
  induction edges with
  | nil =>
      intro cm warns o _ _
      exact ⟨cm, warns, o, rfl, grayEq_refl cm, fun _ h => h⟩
  | cons e es ih =>
      intro cm warns o hstep hgood
      obtain ⟨cm₁, w₁, o₁, hs, hg₁, hb₁⟩ :=
        hstep e (List.mem_cons_self _ _) cm hgood
      have hgood₁ : P cm₁ := hP cm cm₁ hg₁ hgood
      obtain ⟨cm₂, w₂, o₂, hrec, hg₂, hb₂⟩ :=
        ih cm₁ (warns ++ w₁) (o ++ o₁)
          (fun e' he' => hstep e' (List.mem_cons_of_mem _ he')) hgood₁
      refine ⟨cm₂, w₂, o₂, ?_, grayEq_trans _ _ _ hg₂ hg₁, fun n hn => hb₂ n (hb₁ n hn)⟩
      show (match step e cm with
            | none => none
            | some (cm', ws', out') => dfsChildren step es (cm', warns ++ ws', o ++ out')) = _
      rw [hs]
      exact hrec

/-- Every `dfs` call with enough recursion budget succeeds, leaves the gray
set exactly as it found it, and keeps every black mark. -/
theorem dfs_run (outE : String → List Edge) (nodes : String → Node) (V : List String)
    (hclosed : ∀ n e, e ∈ outE n → e.dst ∈ V) :
    ∀ (fuel : Nat) (root : String) (path : List Edge) (cm : ColorMap),
      root ∈ V → countNonGray V cm < fuel →
      ∃ cm' warns o, dfs outE nodes fuel root path cm = some (cm', warns, o) ∧
        grayEq cm' cm ∧ (∀ n, cm n = Color.black → cm' n = Color.black) := by
  intro fuel
  induction fuel with
  | zero =>
      intro root path cm _ hfuel
      exact absurd hfuel (Nat.not_lt_zero _)
  | succ fuel ih =>
      intro root path cm hroot hfuel
      by_cases hgray : cm root = Color.gray
      · refine ⟨cm, [cycleWarning (pathAsString path nodes)], "", ?_,
          grayEq_refl cm, fun _ h => h⟩
        unfold dfs
        rw [if_pos hgray]
      · by_cases hempty : (outE root).isEmpty
        · refine ⟨cm.set root Color.black, [], pathAsString path nodes, ?_, ?_, ?_⟩
          · unfold dfs
            rw [if_neg hgray, if_pos hempty]
          · intro n
            unfold ColorMap.set
            by_cases hn : n = root
            · rw [if_pos hn, hn]
              simp [hgray]
            · rw [if_neg hn]
          · intro n hn
            unfold ColorMap.set
            by_cases hnr : n = root
            · rw [if_pos hnr]
            · rw [if_neg hnr]
              exact hn
        · have hcount : countNonGray V (cm.set root Color.gray) < fuel := by
            have hlt := countNonGray_set_gray_lt V cm root hroot hgray
            omega
          obtain ⟨cm₂, w, o, hchild, hg₂, hb₂⟩ :=
            dfsChildren_sound
              (fun e cm₀ => dfs outE nodes fuel e.dst (path ++ [e]) cm₀)
              (fun c => countNonGray V c < fuel)
              (fun c c' hgc hc => by
                show countNonGray V c' < fuel
                rw [countNonGray_congr V c' c hgc]
                exact hc)
              (outE root) (cm.set root Color.gray) [] ""
              (fun e he cm₀ hcm₀ => ih e.dst (path ++ [e]) cm₀ (hclosed root e he) hcm₀)
              hcount
          refine ⟨cm₂.set root Color.black, w, o, ?_, ?_, ?_⟩
          · unfold dfs
            rw [if_neg hgray, if_neg hempty]
            show (match dfsChildren
                (fun e cm₀ => dfs outE nodes fuel e.dst (path ++ [e]) cm₀)
                (outE root) (cm.set root Color.gray, [], "") with
              | none => none
              | some (cm', warns, out) => some (cm'.set root Color.black, warns, out)) = _
            rw [hchild]
          · intro n
            unfold ColorMap.set
            by_cases hn : n = root
            · rw [if_pos hn, hn]
              simp [hgray]
            · rw [if_neg hn]
              have h₂ := hg₂ n
              unfold ColorMap.set at h₂
              rw [if_neg hn] at h₂
              exact h₂
          · intro n hn
            unfold ColorMap.set
            by_cases hnr : n = root
            · rw [if_pos hnr]
            · rw [if_neg hnr]
              apply hb₂
              unfold ColorMap.set
              rw [if_neg hnr]
              exact hn

/-- Two DFS results that agree on success, warnings and output, with
gray-equal colour maps. -/
def dfsRel (r₁ r₂ : Option (ColorMap × List String × String)) : Prop :=
  (r₁ = none ∧ r₂ = none) ∨
  ∃ c₁ c₂ w o, r₁ = some (c₁, w, o) ∧ r₂ = some (c₂, w, o) ∧ grayEq c₁ c₂

theorem dfsChildren_congr (step₁ step₂ : Edge → ColorMap → Option (ColorMap × List String × String)) :
    ∀ (edges : List Edge),
      (∀ e ∈ edges, ∀ cm₁ cm₂, grayEq cm₁ cm₂ → dfsRel (step₁ e cm₁) (step₂ e cm₂)) →
      ∀ (cm₁ cm₂ : ColorMap) (ws : List String) (o : String), grayEq cm₁ cm₂ →
        dfsRel (dfsChildren step₁ edges (cm₁, ws, o)) (dfsChildren step₂ edges (cm₂, ws, o)) := by
  intro edges
  induction edges with
  | nil =>
      intro _ cm₁ cm₂ ws o hg
      exact Or.inr ⟨cm₁, cm₂, ws, o, rfl, rfl, hg⟩
  | cons e es ih =>
      intro hstep cm₁ cm₂ ws o hg
      have hrel := hstep e (List.mem_cons_self _ _) cm₁ cm₂ hg
      show dfsRel
        (match step₁ e cm₁ with
          | none => none
          | some (cm', ws', out') => dfsChildren step₁ es (cm', ws ++ ws', o ++ out'))
        (match step₂ e cm₂ with
          | none => none
          | some (cm', ws', out') => dfsChildren step₂ es (cm', ws ++ ws', o ++ out'))
      rcases hrel with ⟨h₁, h₂⟩ | ⟨c₁, c₂, w', o', h₁, h₂, hg'⟩
      · rw [h₁, h₂]
        exact Or.inl ⟨rfl, rfl⟩
      · rw [h₁, h₂]
        exact ih (fun e' he' => hstep e' (List.mem_cons_of_mem _ he')) c₁ c₂
          (ws ++ w') (o ++ o') hg'

/-- The DFS reads the colour map only through `= gray` tests: gray-equal
colour maps (the same in-progress set, any difference between white and
black marks) produce the same warnings and the same output. -/
theorem dfs_gray_congr (outE : String → List Edge) (nodes : String → Node) :
    ∀ (fuel : Nat) (root : String) (path : List Edge) (cm₁ cm₂ : ColorMap),
      grayEq cm₁ cm₂ →
      dfsRel (dfs outE nodes fuel root path cm₁) (dfs outE nodes fuel root path cm₂) := by
  intro fuel
  induction fuel with
  | zero =>
      intro root path cm₁ cm₂ _
      exact Or.inl ⟨rfl, rfl⟩
  | succ fuel ih =>
      intro root path cm₁ cm₂ hg
      by_cases hgray : cm₁ root = Color.gray
      · have hgray₂ : cm₂ root = Color.gray := (hg root).mp hgray
        right
        refine ⟨cm₁, cm₂, [cycleWarning (pathAsString path nodes)], "", ?_, ?_, hg⟩
        · unfold dfs
          rw [if_pos hgray]
        · unfold dfs
          rw [if_pos hgray₂]
      · have hgray₂ : ¬ cm₂ root = Color.gray := fun h => hgray ((hg root).mpr h)
        by_cases hempty : (outE root).isEmpty
        · right
          refine ⟨cm₁.set root Color.black, cm₂.set root Color.black, [],
            pathAsString path nodes, ?_, ?_, ?_⟩
          · unfold dfs
            rw [if_neg hgray, if_pos hempty]
          · unfold dfs
            rw [if_neg hgray₂, if_pos hempty]
          · intro n
            unfold ColorMap.set
            by_cases hn : n = root
            · simp [hn]
            · simp only [if_neg hn]
              exact hg n
        · have hgset : grayEq (cm₁.set root Color.gray) (cm₂.set root Color.gray) := by
            intro n
            unfold ColorMap.set
            by_cases hn : n = root
            · simp [hn]
            · simp only [if_neg hn]
              exact hg n
          have hrel := dfsChildren_congr
            (fun e cm₀ => dfs outE nodes fuel e.dst (path ++ [e]) cm₀)
            (fun e cm₀ => dfs outE nodes fuel e.dst (path ++ [e]) cm₀)
            (outE root)
            (fun e _ c₁ c₂ hgc => ih e.dst (path ++ [e]) c₁ c₂ hgc)
            (cm₁.set root Color.gray) (cm₂.set root Color.gray) [] "" hgset
          have hshape₁ : dfs outE nodes (fuel + 1) root path cm₁ =
              (match dfsChildren
                  (fun e cm₀ => dfs outE nodes fuel e.dst (path ++ [e]) cm₀)
                  (outE root) (cm₁.set root Color.gray, [], "") with
                | none => none
                | some (cm', warns, out) => some (cm'.set root Color.black, warns, out)) := by
            simp only [dfs]
            rw [if_neg hgray, if_neg hempty]
          have hshape₂ : dfs outE nodes (fuel + 1) root path cm₂ =
              (match dfsChildren
                  (fun e cm₀ => dfs outE nodes fuel e.dst (path ++ [e]) cm₀)
                  (outE root) (cm₂.set root Color.gray, [], "") with
                | none => none
                | some (cm', warns, out) => some (cm'.set root Color.black, warns, out)) := by
            simp only [dfs]
            rw [if_neg hgray₂, if_neg hempty]
          rcases hrel with ⟨h₁, h₂⟩ | ⟨c₁, c₂, w', o', h₁, h₂, hg'⟩
          · left
            rw [hshape₁, hshape₂, h₁, h₂]
            exact ⟨rfl, rfl⟩
          · right
            refine ⟨c₁.set root Color.black, c₂.set root Color.black, w', o', ?_, ?_, ?_⟩
            · rw [hshape₁, h₁]
            · rw [hshape₂, h₂]
            · intro n
              unfold ColorMap.set
              by_cases hn : n = root
              · simp [hn]
              · simp only [if_neg hn]
                exact hg' n

/-! ## C3 -/

theorem generateNodeToOutEdges_closed (g : Graph) :
    ∀ (n : String) (e : Edge), e ∈ generateNodeToOutEdges g n → e.dst ∈ nodeUniverse g := by
  intro n e he
  unfold generateNodeToOutEdges at he
  have hedge : e ∈ g.edges := (List.mem_filter.mp he).1
  unfold nodeUniverse
  exact List.mem_append_right _ (List.mem_map.mpr ⟨e, hedge, rfl⟩)

/-- C3: with a recursion budget exceeding the number of non-gray nodes of
a universe closed under the out-edge map, the depth-first search always
returns (terminates); a branch entering an in-progress (gray) node
returns zero output and exactly the cycle warning carrying the offending
path; and the child loop continues with the remaining out-edges after any
child returns — a cycle-dropped branch does not stop its siblings. -/
theorem dfs_cycle_safe (outE : String → List Edge) (nodes : String → Node)
    (V : List String) (fuel : Nat) (root : String) (path : List Edge) (cm : ColorMap)
    (hclosed : ∀ (n : String) (e : Edge), e ∈ outE n → e.dst ∈ V)
    (hroot : root ∈ V) (hfuel : countNonGray V cm < fuel) :
    (∃ cm' warns o, dfs outE nodes fuel root path cm = some (cm', warns, o)) ∧
    (cm root = Color.gray →
      dfs outE nodes fuel root path cm =
        some (cm, [cycleWarning (pathAsString path nodes)], "")) ∧
    (∀ (step : Edge → ColorMap → Option (ColorMap × List String × String))
       (e : Edge) (es : List Edge) (cm₀ cm₁ : ColorMap) (ws w₁ : List String)
       (o o₁ : String),
      step e cm₀ = some (cm₁, w₁, o₁) →
      dfsChildren step (e :: es) (cm₀, ws, o) =
        dfsChildren step es (cm₁, ws ++ w₁, o ++ o₁)) := by
  refine ⟨?_, ?_, ?_⟩
  · obtain ⟨cm', warns, o, hrun, _, _⟩ :=
      dfs_run outE nodes V hclosed fuel root path cm hroot hfuel
    exact ⟨cm', warns, o, hrun⟩
  · intro hgray
    obtain ⟨f, rfl⟩ : ∃ f, fuel = f + 1 := ⟨fuel - 1, by omega⟩
    unfold dfs
    rw [if_pos hgray]
  · intro step e es cm₀ cm₁ ws w₁ o o₁ hstep
    show (match step e cm₀ with
          | none => none
          | some (cm', ws', out') => dfsChildren step es (cm', ws ++ ws', o ++ out')) = _
    rw [hstep]

/-- Witness for C3 on spec scenario 5: the graph `N0 → N1 → N2 → N1` has a
cycle reachable from the root `N0`; the search from `N0` returns. -/
theorem dfs_cycle_safe_witness :
    (∃ cm' warns o,
      dfs
        (generateNodeToOutEdges
          { nodes := [{ name := "N0", tooltip := "N0" }, { name := "N1", tooltip := "N1" },
                      { name := "N2", tooltip := "N2" }],
            edges := [{ src := "N0", dst := "N1", weight := some 1 },
                      { src := "N1", dst := "N2", weight := some 1 },
                      { src := "N2", dst := "N1", weight := some 1 }] })
        (nameToNodesFn
          { nodes := [{ name := "N0", tooltip := "N0" }, { name := "N1", tooltip := "N1" },
                      { name := "N2", tooltip := "N2" }],
            edges := [{ src := "N0", dst := "N1", weight := some 1 },
                      { src := "N1", dst := "N2", weight := some 1 },
                      { src := "N2", dst := "N1", weight := some 1 }] })
        8 "N0" [] (fun _ => Color.white) = some (cm', warns, o)) ∧
    ((fun _ => Color.white : ColorMap) "N0" = Color.gray →
      dfs
        (generateNodeToOutEdges
          { nodes := [{ name := "N0", tooltip := "N0" }, { name := "N1", tooltip := "N1" },
                      { name := "N2", tooltip := "N2" }],
            edges := [{ src := "N0", dst := "N1", weight := some 1 },
                      { src := "N1", dst := "N2", weight := some 1 },
                      { src := "N2", dst := "N1", weight := some 1 }] })
        (nameToNodesFn
          { nodes := [{ name := "N0", tooltip := "N0" }, { name := "N1", tooltip := "N1" },
                      { name := "N2", tooltip := "N2" }],
            edges := [{ src := "N0", dst := "N1", weight := some 1 },
                      { src := "N1", dst := "N2", weight := some 1 },
                      { src := "N2", dst := "N1", weight := some 1 }] })
        8 "N0" [] (fun _ => Color.white) =
        some ((fun _ => Color.white),
          [cycleWarning (pathAsString []
            (nameToNodesFn
              { nodes := [{ name := "N0", tooltip := "N0" }, { name := "N1", tooltip := "N1" },
                          { name := "N2", tooltip := "N2" }],
                edges := [{ src := "N0", dst := "N1", weight := some 1 },
                          { src := "N1", dst := "N2", weight := some 1 },
                          { src := "N2", dst := "N1", weight := some 1 }] }))], "")) ∧
    (∀ (step : Edge → ColorMap → Option (ColorMap × List String × String))
       (e : Edge) (es : List Edge) (cm₀ cm₁ : ColorMap) (ws w₁ : List String)
       (o o₁ : String),
      step e cm₀ = some (cm₁, w₁, o₁) →
      dfsChildren step (e :: es) (cm₀, ws, o) =
        dfsChildren step es (cm₁, ws ++ w₁, o ++ o₁)) :=
  dfs_cycle_safe
    (generateNodeToOutEdges
      { nodes := [{ name := "N0", tooltip := "N0" }, { name := "N1", tooltip := "N1" },
                  { name := "N2", tooltip := "N2" }],
        edges := [{ src := "N0", dst := "N1", weight := some 1 },
                  { src := "N1", dst := "N2", weight := some 1 },
                  { src := "N2", dst := "N1", weight := some 1 }] })
    (nameToNodesFn
      { nodes := [{ name := "N0", tooltip := "N0" }, { name := "N1", tooltip := "N1" },
                  { name := "N2", tooltip := "N2" }],
        edges := [{ src := "N0", dst := "N1", weight := some 1 },
                  { src := "N1", dst := "N2", weight := some 1 },
                  { src := "N2", dst := "N1", weight := some 1 }] })
    (nodeUniverse
      { nodes := [{ name := "N0", tooltip := "N0" }, { name := "N1", tooltip := "N1" },
                  { name := "N2", tooltip := "N2" }],
        edges := [{ src := "N0", dst := "N1", weight := some 1 },
                  { src := "N1", dst := "N2", weight := some 1 },
                  { src := "N2", dst := "N1", weight := some 1 }] })
    8 "N0" [] (fun _ => Color.white)
    (generateNodeToOutEdges_closed _) (by decide) (by decide)

/-! ## C5 -/

/-- Counterexample to C5: in the graph `N1 → N3 → N4`, `N2 → N3`, the
first root's traversal completes the subgraph `N3 → N4` (both nodes end
black), yet the second root's traversal emits `N2;N3;N4` right through it:
the `done` mark persists but does not suppress re-emission. -/
theorem dfs_done_subgraph_reemitted :
    GraphAsText
        { nodes := [{ name := "N1", tooltip := "N1" }, { name := "N2", tooltip := "N2" },
                    { name := "N3", tooltip := "N3" }, { name := "N4", tooltip := "N4" }],
          edges := [{ src := "N1", dst := "N3", weight := none },
                    { src := "N2", dst := "N3", weight := none },
                    { src := "N3", dst := "N4", weight := none }] } =
      .ok "N1;N3;N4 0\nN2;N3;N4 0\n" ∧
    (dfs
        (generateNodeToOutEdges
          { nodes := [{ name := "N1", tooltip := "N1" }, { name := "N2", tooltip := "N2" },
                      { name := "N3", tooltip := "N3" }, { name := "N4", tooltip := "N4" }],
            edges := [{ src := "N1", dst := "N3", weight := none },
                      { src := "N2", dst := "N3", weight := none },
                      { src := "N3", dst := "N4", weight := none }] })
        (nameToNodesFn
          { nodes := [{ name := "N1", tooltip := "N1" }, { name := "N2", tooltip := "N2" },
                      { name := "N3", tooltip := "N3" }, { name := "N4", tooltip := "N4" }],
            edges := [{ src := "N1", dst := "N3", weight := none },
                      { src := "N2", dst := "N3", weight := none },
                      { src := "N3", dst := "N4", weight := none }] })
        9 "N1" [] (fun _ => Color.white)).map
        (fun r => (r.1 "N3", r.1 "N4", r.2.1, r.2.2)) =
      some (Color.black, Color.black, [], "N1;N3;N4 0\n") ∧
    ((dfs
        (generateNodeToOutEdges
          { nodes := [{ name := "N1", tooltip := "N1" }, { name := "N2", tooltip := "N2" },
                      { name := "N3", tooltip := "N3" }, { name := "N4", tooltip := "N4" }],
            edges := [{ src := "N1", dst := "N3", weight := none },
                      { src := "N2", dst := "N3", weight := none },
                      { src := "N3", dst := "N4", weight := none }] })
        (nameToNodesFn
          { nodes := [{ name := "N1", tooltip := "N1" }, { name := "N2", tooltip := "N2" },
                      { name := "N3", tooltip := "N3" }, { name := "N4", tooltip := "N4" }],
            edges := [{ src := "N1", dst := "N3", weight := none },
                      { src := "N2", dst := "N3", weight := none },
                      { src := "N3", dst := "N4", weight := none }] })
        9 "N1" [] (fun _ => Color.white)).bind
        (fun r =>
          dfs
            (generateNodeToOutEdges
              { nodes := [{ name := "N1", tooltip := "N1" }, { name := "N2", tooltip := "N2" },
                          { name := "N3", tooltip := "N3" }, { name := "N4", tooltip := "N4" }],
                edges := [{ src := "N1", dst := "N3", weight := none },
                          { src := "N2", dst := "N3", weight := none },
                          { src := "N3", dst := "N4", weight := none }] })
            (nameToNodesFn
              { nodes := [{ name := "N1", tooltip := "N1" }, { name := "N2", tooltip := "N2" },
                          { name := "N3", tooltip := "N3" }, { name := "N4", tooltip := "N4" }],
                edges := [{ src := "N1", dst := "N3", weight := none },
                          { src := "N2", dst := "N3", weight := none },
                          { src := "N3", dst := "N4", weight := none }] })
            9 "N2" [] r.1)).map (fun r => (r.2.1, r.2.2)) =
      some ([], "N2;N3;N4 0\n") := by
  refine ⟨rfl, rfl, rfl⟩

/-- C5 (amended): every completed `dfs` call preserves black (`done`)
marks — nodes marked done stay done through all later traversals — but
the marks never influence what is emitted: any colour map with the same
in-progress set (black marks added or removed freely) yields the same
warnings and the same output, so a path through a previously completed
subgraph is emitted again. -/
theorem dfs_done_persists_not_pruned (outE : String → List Edge) (nodes : String → Node)
    (V : List String) (fuel : Nat) (root : String) (path : List Edge) (cm : ColorMap)
    (hclosed : ∀ (n : String) (e : Edge), e ∈ outE n → e.dst ∈ V)
    (hroot : root ∈ V) (hfuel : countNonGray V cm < fuel) :
    ∃ cm' warns o, dfs outE nodes fuel root path cm = some (cm', warns, o) ∧
      (∀ n, cm n = Color.black → cm' n = Color.black) ∧
      (∀ cm₂, grayEq cm cm₂ →
        ∃ cm₂', dfs outE nodes fuel root path cm₂ = some (cm₂', warns, o)) := by
  obtain ⟨cm', warns, o, hrun, _, hb⟩ :=
    dfs_run outE nodes V hclosed fuel root path cm hroot hfuel
  refine ⟨cm', warns, o, hrun, hb, ?_⟩
  intro cm₂ hg₂
  rcases dfs_gray_congr outE nodes fuel root path cm cm₂ hg₂ with
    ⟨h₁, _⟩ | ⟨c₁, c₂, w', o', h₁, h₂, _⟩
  · rw [hrun] at h₁
    cases h₁
  · rw [hrun] at h₁
    have h₃ := Option.some.inj h₁
    rw [Prod.mk.injEq, Prod.mk.injEq] at h₃
    obtain ⟨-, hw, ho⟩ := h₃
    exact ⟨c₂, by rw [h₂, ← hw, ← ho]⟩

/-- Witness for C5 (amended) on the shared-subgraph graph, from root
`N1` with a fresh colour map. -/
theorem dfs_done_persists_not_pruned_witness :
    ∃ cm' warns o,
      dfs
        (generateNodeToOutEdges
          { nodes := [{ name := "N1", tooltip := "N1" }, { name := "N2", tooltip := "N2" },
                      { name := "N3", tooltip := "N3" }, { name := "N4", tooltip := "N4" }],
            edges := [{ src := "N1", dst := "N3", weight := none },
                      { src := "N2", dst := "N3", weight := none },
                      { src := "N3", dst := "N4", weight := none }] })
        (nameToNodesFn
          { nodes := [{ name := "N1", tooltip := "N1" }, { name := "N2", tooltip := "N2" },
                      { name := "N3", tooltip := "N3" }, { name := "N4", tooltip := "N4" }],
            edges := [{ src := "N1", dst := "N3", weight := none },
                      { src := "N2", dst := "N3", weight := none },
                      { src := "N3", dst := "N4", weight := none }] })
        9 "N1" [] (fun _ => Color.white) = some (cm', warns, o) ∧
      (∀ n, (fun _ => Color.white : ColorMap) n = Color.black → cm' n = Color.black) ∧
      (∀ cm₂, grayEq (fun _ => Color.white) cm₂ →
        ∃ cm₂',
          dfs
            (generateNodeToOutEdges
              { nodes := [{ name := "N1", tooltip := "N1" }, { name := "N2", tooltip := "N2" },
                          { name := "N3", tooltip := "N3" }, { name := "N4", tooltip := "N4" }],
                edges := [{ src := "N1", dst := "N3", weight := none },
                          { src := "N2", dst := "N3", weight := none },
                          { src := "N3", dst := "N4", weight := none }] })
            (nameToNodesFn
              { nodes := [{ name := "N1", tooltip := "N1" }, { name := "N2", tooltip := "N2" },
                          { name := "N3", tooltip := "N3" }, { name := "N4", tooltip := "N4" }],
                edges := [{ src := "N1", dst := "N3", weight := none },
                          { src := "N2", dst := "N3", weight := none },
                          { src := "N3", dst := "N4", weight := none }] })
            9 "N1" [] cm₂ = some (cm₂', warns, o)) := by
  exact (dfs_done_persists_not_pruned
    (generateNodeToOutEdges
      { nodes := [{ name := "N1", tooltip := "N1" }, { name := "N2", tooltip := "N2" },
                  { name := "N3", tooltip := "N3" }, { name := "N4", tooltip := "N4" }],
        edges := [{ src := "N1", dst := "N3", weight := none },
                  { src := "N2", dst := "N3", weight := none },
                  { src := "N3", dst := "N4", weight := none }] })
    (nameToNodesFn
      { nodes := [{ name := "N1", tooltip := "N1" }, { name := "N2", tooltip := "N2" },
                  { name := "N3", tooltip := "N3" }, { name := "N4", tooltip := "N4" }],
        edges := [{ src := "N1", dst := "N3", weight := none },
                  { src := "N2", dst := "N3", weight := none },
                  { src := "N3", dst := "N4", weight := none }] })
    (nodeUniverse
      { nodes := [{ name := "N1", tooltip := "N1" }, { name := "N2", tooltip := "N2" },
                  { name := "N3", tooltip := "N3" }, { name := "N4", tooltip := "N4" }],
        edges := [{ src := "N1", dst := "N3", weight := none },
                  { src := "N2", dst := "N3", weight := none },
                  { src := "N3", dst := "N4", weight := none }] })
    9 "N1" [] (fun _ => Color.white)
    (generateNodeToOutEdges_closed _) (by decide) (by decide))

/-! ## C2 -/

/-- Each string followed by one `";"`, concatenated — the folded prefix
the `pathAsString` loop accumulates. -/
def semiConcat : List String → String
  | [] => ""
  | x :: xs => x ++ ";" ++ semiConcat xs

theorem foldl_semi (lab : Edge → String) :
    ∀ (path : List Edge) (b : String),
      path.foldl (fun b e => b ++ lab e ++ ";") b = b ++ semiConcat (path.map lab) := by
  intro path
  induction path with
  | nil =>
      intro b
      show b = b ++ semiConcat []
      rw [show semiConcat [] = "" from rfl, String.append_empty]
  | cons e es ih =>
      intro b
      rw [List.foldl_cons, ih]
      show b ++ lab e ++ ";" ++ semiConcat (es.map lab) =
        b ++ (lab e ++ ";" ++ semiConcat (es.map lab))
      rw [String.append_assoc, String.append_assoc, String.append_assoc]

theorem stringsJoin_append_last :
    ∀ (xs : List String) (last : String),
      stringsJoin ";" (xs ++ [last]) = semiConcat xs ++ last := by
  intro xs
  induction xs with
  | nil =>
      intro last
      show stringsJoin ";" [last] = "" ++ last
      rw [String.empty_append]
      rfl
  | cons x xs ih =>
      intro last
      cases xs with
      | nil =>
          show x ++ ";" ++ stringsJoin ";" [last] = x ++ ";" ++ "" ++ last
          rw [String.append_empty]
          rfl
      | cons y ys =>
          show x ++ ";" ++ stringsJoin ";" ((y :: ys) ++ [last]) =
            x ++ ";" ++ semiConcat (y :: ys) ++ last
          rw [ih]
          simp [String.append_assoc]

theorem weight_foldl_sum :
    ∀ (path : List Edge) (w₀ : Int),
      path.foldl (fun w e => match e.weight with | some v => w + v | none => w) w₀ =
        w₀ + (path.map (fun e => e.weight.getD 0)).sum := by
  intro path
  induction path with
  | nil => intro w₀; simp
  | cons e es ih =>
      intro w₀
      rw [List.foldl_cons]
      cases hw : e.weight with
      | none =>
          show es.foldl _ w₀ = _
          rw [ih]
          simp [hw]
      | some v =>
          show es.foldl _ (w₀ + v) = _
          rw [ih]
          simp [hw]
          ring

/-- The folded line `pathAsString` produces for a nonempty path: the
semicolon-joined labels (sources then the last destination), one space,
the decimal weight sum, one newline. -/
theorem pathAsString_line (f : String → Node) (path : List Edge) (lastE : Edge)
    (hlast : path.getLast? = some lastE) :
    pathAsString path f =
      stringsJoin ";" (path.map (fun e => getFormattedFunctionLabel (f e.src)) ++
          [getFormattedFunctionLabel (f lastE.dst)]) ++ " " ++
        toString ((path.map (fun e => e.weight.getD 0)).sum) ++ "\n" := by
  unfold pathAsString
  rw [hlast, stringsJoin_append_last,
    foldl_semi (fun e => getFormattedFunctionLabel (f e.src)) path "",
    String.empty_append, weight_foldl_sum]
  rw [Int.zero_add]

/-- Counterexample to C2: an isolated in-degree-zero `N`-node in a graph
that has edges elsewhere makes the flattener emit the line `0` — a bare
weight with no function label, which no `name1;...;nameN <int>` line can
equal. -/
theorem flattener_weight_only_line :
    GraphAsText
        { nodes := [{ name := "N1", tooltip := "f1" }, { name := "N2", tooltip := "N2" },
                    { name := "N3", tooltip := "N3" }],
          edges := [{ src := "N2", dst := "N3", weight := some 1 }] } =
      .ok "0\nN2;N3 1\n" ∧
    (∀ (names : List String) (w : Int),
      stringsJoin ";" names ++ " " ++ toString w ++ "\n" ≠ "0\n") := by
  refine ⟨rfl, ?_⟩
  intro names w h
  have hmem : ' ' ∈ (stringsJoin ";" names ++ " " ++ toString w ++ "\n").data := by
    rw [String.data_append, String.data_append, String.data_append]
    exact List.mem_append_left _ (List.mem_append_left _
      (List.mem_append_right _ (List.mem_cons_self _ _)))
  rw [h] at hmem
  exact absurd hmem (by decide)

/-- C2 (amended): a profile sample with at least one function name
serializes to `name1;...;nameN <count>\n`, the serializer output is
exactly the concatenation of those lines with nothing before or after,
and the flattener line for a path with at least one edge carries at
least one label before its space-separated integer weight; a root with no
outgoing edges, however, emits the label-free weight line. -/
theorem folded_line_syntax (s : SampleV1) (samples : List SampleV1)
    (f : String → Node) (path : List Edge) (lastE : Edge)
    (hs : s.Funcs ≠ []) (hlast : path.getLast? = some lastE) :
    (∃ names, names ≠ [] ∧ names = s.Funcs ∧
      renderSample s = stringsJoin ";" names ++ " " ++ toString s.Count ++ "\n") ∧
    ToFlameInput samples = String.join (samples.map renderSample) ∧
    (∃ labels, labels ≠ [] ∧
      pathAsString path f =
        stringsJoin ";" labels ++ " " ++
          toString ((path.map (fun e => e.weight.getD 0)).sum) ++ "\n") := by
  refine ⟨⟨s.Funcs, hs, rfl, rfl⟩, rfl, ?_⟩
  refine ⟨path.map (fun e => getFormattedFunctionLabel (f e.src)) ++
    [getFormattedFunctionLabel (f lastE.dst)], by simp, ?_⟩
  exact pathAsString_line f path lastE hlast

/-- Witness for C2 (amended): the sample `func1;func2 10` and the
one-edge path `N2 → N3` of weight 1. -/
theorem folded_line_syntax_witness :
    (∃ names, names ≠ [] ∧ names = ["func1", "func2"] ∧
      renderSample { Funcs := ["func1", "func2"], Count := 10 } =
        stringsJoin ";" names ++ " " ++ toString (10 : Int) ++ "\n") ∧
    ToFlameInput [{ Funcs := ["func1", "func2"], Count := 10 }] =
      String.join ([{ Funcs := ["func1", "func2"], Count := (10 : Int) }].map renderSample) ∧
    (∃ labels, labels ≠ [] ∧
      pathAsString [{ src := "N2", dst := "N3", weight := some 1 }]
          (fun s => { name := s, tooltip := s }) =
        stringsJoin ";" labels ++ " " ++
          toString ((([{ src := "N2", dst := "N3", weight := some 1 }] : List Edge).map
            (fun e => e.weight.getD 0)).sum) ++ "\n") :=
  folded_line_syntax { Funcs := ["func1", "func2"], Count := 10 }
    [{ Funcs := ["func1", "func2"], Count := 10 }]
    (fun s => { name := s, tooltip := s })
    [{ src := "N2", dst := "N3", weight := some 1 }]
    { src := "N2", dst := "N3", weight := some 1 }
    (by decide) (by decide)

end GoTorch
